import Mathlib

/-!
Verification of the Oxibooru → Bakabooru tag/category/source migration tool
(migrate_oxibooru_tags.py).

The development shallowly embeds the core of the script:

* Python string primitives used by the script (strip / lower / splitlines),
  modelled on `List Char` (ASCII case folding; the whitespace set is the
  common ASCII subset of Python's);
* a JSON value type for the loosely-typed payloads the script consumes;
* `select_reverse_search_match`, the reverse-search match selector;
* `extract_oxibooru_sources`, the source-field normalizer;
* the `Migrator` class (`ensure_category`, `ensure_tag`,
  `migrate_post_tags`, `migrate_post_sources`) threaded over an explicit
  state holding the in-memory indexes plus a model of the remote
  Bakabooru service (interface behavior taken from the documented
  external-interface contract), together with a write log;
* the per-item failure-isolation skeleton of `main`'s batch loop, with the
  per-item pipeline abstracted as an oracle.

Theorems `claim_C1` … `claim_C10` settle the frozen claims.
-/

/-! ## Python string primitives -/

/-- ASCII whitespace recognized by Python's `str.strip` / `str.splitlines`
(space, tab, newline, carriage return, vertical tab, form feed). -/
def isPyWs (c : Char) : Bool :=
  decide (c.toNat = 32 ∨ c.toNat = 9 ∨ c.toNat = 10 ∨ c.toNat = 13 ∨
    c.toNat = 11 ∨ c.toNat = 12)

/-- Drop leading and trailing whitespace from a character list. -/
def stripList (l : List Char) : List Char :=
  ((l.dropWhile isPyWs).reverse.dropWhile isPyWs).reverse

/-- Python `str.strip()`. -/
def pyStrip (s : String) : String :=
  ⟨stripList s.data⟩

/-- ASCII lower-casing of one character (Python `str.lower` restricted to
ASCII letters). -/
def charLower (c : Char) : Char :=
  if 65 ≤ c.toNat ∧ c.toNat ≤ 90 then
    Char.ofNat (c.toNat + 32)
  else
    c

/-- Python `str.lower()`. -/
def pyLower (s : String) : String :=
  ⟨s.data.map charLower⟩

/-- The script's `normalize_name`: `name.strip().lower()`. -/
def normalize_name (name : String) : String :=
  pyLower (pyStrip name)

/-- Python `str.splitlines()` on the common line terminators
(`\n`, `\r`, `\r\n`). -/
def splitLinesAux : List Char → List Char → List String
  | [], acc => if acc.isEmpty then [] else [⟨acc.reverse⟩]
  | '\r' :: '\n' :: rest, acc => ⟨acc.reverse⟩ :: splitLinesAux rest []
  | '\n' :: rest, acc => ⟨acc.reverse⟩ :: splitLinesAux rest []
  | '\r' :: rest, acc => ⟨acc.reverse⟩ :: splitLinesAux rest []
  | c :: rest, acc => splitLinesAux rest (c :: acc)

/-- Python `str.splitlines()`. -/
def splitLinesPy (s : String) : List String :=
  splitLinesAux s.data []

/-! ## JSON values -/

/-- Decoded JSON, the shape of the loosely-typed payloads (`dict[str, Any]`)
the script consumes. Numbers are modelled as rationals. -/
inductive Json where
  | null
  | bool (b : Bool)
  | num (q : ℚ)
  | str (s : String)
  | arr (elems : List Json)
  | obj (fields : List (String × Json))

/-- Python `dict.get(k)` on an object's field list (first binding wins, as in
a parsed JSON object). -/
def Json.get (fields : List (String × Json)) (k : String) : Option Json :=
  (fields.find? (fun p => p.1 == k)).map (fun p => p.2)

/-- Python truthiness test on a decoded JSON value (`if value:`). -/
def Json.isFalsy : Json → Bool
  | .null => true
  | .bool b => !b
  | .num q => q == 0
  | .str s => s == ""
  | .arr l => l.isEmpty
  | .obj l => l.isEmpty

/-- Python `str()` of a decoded JSON value. Faithful for strings; for the
other shapes a deterministic rendering stands in for Python's textual
conversion (the script only feeds those renderings into name
normalization, where only determinism matters). -/
def pyStr : Json → String
  | .str s => s
  | .null => "None"
  | .bool true => "True"
  | .bool false => "False"
  | .num q => toString q
  | .arr _ => "<list>"
  | .obj _ => "<dict>"

/-- Python `float(x)` on a decoded JSON value, `none` when `float` would
raise `TypeError`/`ValueError`. Numeric strings are not modelled (treated
as unparseable); the reverse-search payload carries distances as JSON
numbers. -/
def pyFloat : Json → Option ℚ
  | .num q => some q
  | .bool b => some (if b then 1 else 0)
  | _ => none

/-! ## Match selector (`select_reverse_search_match`) -/

/-- Parse one entry of `similarPosts`: it must be an object, its `post`
field an object, and its `distance` field convertible by `float`. Returns
the (distance, post) pair, `none` when the entry is skipped. -/
def candParse (item : Json) : Option (ℚ × Json) :=
  match item with
  | .obj fields =>
    match Json.get fields "post" with
    | some (.obj pf) =>
      match pyFloat ((Json.get fields "distance").getD .null) with
      | some d => some (d, .obj pf)
      | none => none
    | _ => none
  | _ => none

/-- The `candidates` list accumulated by the selector's loop. -/
def parseCandidates (items : List Json) : List (ℚ × Json) :=
  items.filterMap candParse

/-- Stable insertion of a candidate into a distance-sorted list: an element
goes before the first strictly larger distance, after equal ones inserted
earlier in the original order. -/
def insertByDistance (x : ℚ × Json) : List (ℚ × Json) → List (ℚ × Json)
  | [] => [x]
  | y :: ys => if x.1 ≤ y.1 then x :: y :: ys else y :: insertByDistance x ys

/-- Stable sort by distance, the semantics of
`candidates.sort(key=lambda pair: pair[0])` (Python's sort is stable). -/
def sortByDistance : List (ℚ × Json) → List (ℚ × Json)
  | [] => []
  | x :: xs => insertByDistance x (sortByDistance xs)

/-- Python's `value or []` on an optional field lookup (used for
`similarPosts` and for a tag entry's `names`). -/
def pyOrEmptyList (v : Option Json) : Json :=
  match v with
  | none => .arr []
  | some j => if j.isFalsy then .arr [] else j

/-- The similar-candidate branch of the selector (everything after the
exact-match check). -/
def selectSimilar (v : Option Json) (max_similar_distance : ℚ) :
    Option Json × String × Option ℚ :=
  match pyOrEmptyList v with
  | .arr items =>
    if items.isEmpty then (none, "none", none)
    else
      match sortByDistance (parseCandidates items) with
      | [] => (none, "none", none)
      | best :: _ =>
        if best.1 > max_similar_distance then (none, "too_far", some best.1)
        else (some best.2, "similar", some best.1)
  | _ => (none, "none", none)

/-- The script's `select_reverse_search_match`: returns
`(post, match_kind, distance)`. -/
def select_reverse_search_match (reverse_result : List (String × Json))
    (max_similar_distance : ℚ) : Option Json × String × Option ℚ :=
  match Json.get reverse_result "exactPost" with
  | some (.obj ef) => (some (.obj ef), "exact", some 0)
  | _ => selectSimilar (Json.get reverse_result "similarPosts") max_similar_distance

/-! ## Source extractor (`extract_oxibooru_sources`) -/

/-- The candidate entries derived from the raw `source` field before the
trim/dedup loop: a string is split on line breaks, a list keeps its string
entries, anything else contributes nothing. -/
def sourceCandidates (raw : Option Json) : List String :=
  match raw with
  | some (.str s) => splitLinesPy s
  | some (.arr l) => l.filterMap (fun j => match j with | .str s => some s | _ => none)
  | _ => []

/-- The trim / drop-empty / first-seen-dedup loop of
`extract_oxibooru_sources`; `seen` is the set of lower-cased keys already
emitted. -/
def dedupLoop : List String → List String → List String
  | _, [] => []
  | seen, c :: cs =>
    let value := pyStrip c
    if value = "" then dedupLoop seen cs
    else if pyLower value ∈ seen then dedupLoop seen cs
    else value :: dedupLoop (pyLower value :: seen) cs

/-- The script's `extract_oxibooru_sources`, over the origin post's field
list. -/
def extract_oxibooru_sources (oxi_post : List (String × Json)) : List String :=
  match Json.get oxi_post "source" with
  | none => []
  | some .null => []
  | some (.str s) => dedupLoop [] (splitLinesPy s)
  | some (.arr l) => dedupLoop [] (l.filterMap (fun j => match j with | .str s => some s | _ => none))
  | some _ => []

/-! ## Managed entities, indexes and the remote model -/

/-- A tag as held in the Bakabooru tag index (`ManagedTag`). -/
structure ManagedTag where
  id : Nat
  name : String
  category_id : Option Nat
deriving DecidableEq

/-- A category as held in the Bakabooru category index
(`ManagedCategory`). -/
structure ManagedCategory where
  id : Nat
  name : String
  color : String
  order : Int
deriving DecidableEq

/-- Python dict lookup on an association list where a later `dictSet`
shadows earlier bindings. -/
def dictGet {α : Type} (m : List (String × α)) (k : String) : Option α :=
  (m.find? (fun p => p.1 == k)).map (fun p => p.2)

/-- Python dict assignment: the new binding shadows any older one. -/
def dictSet {α : Type} (m : List (String × α)) (k : String) (v : α) : List (String × α) :=
  (k, v) :: m

/-- Value stored per Oxibooru category by
`OxibooruClient.get_tag_categories`. -/
structure OxiCategoryMeta where
  name : String
  color : String
  order : Int
deriving DecidableEq

/-- One entry of the Oxibooru `/tag-categories` listing after the typed
decode at the boundary (name as a string; color and order optional as in
the JSON payload). -/
structure OxiCatRaw where
  name : String
  color : Option String
  order : Option Int
deriving DecidableEq

/-- `OxibooruClient.get_tag_categories`: keyed by normalized name, blank
names skipped, color defaulted to `#808080` when falsy, order defaulted
to 0. -/
def get_tag_categories (results : List OxiCatRaw) : List (String × OxiCategoryMeta) :=
  results.foldl
    (fun m item =>
      let name := pyStrip item.name
      if name = "" then m
      else
        dictSet m (normalize_name name)
          { name := name
          , color := match item.color with
              | none => "#808080"
              | some c => if c = "" then "#808080" else c
          , order := match item.order with
              | none => 0
              | some o => o })
    []

/-- The target post's remote state: attached tag names and raw source
list. -/
structure RemotePost where
  tagNames : List String
  sources : List String
deriving DecidableEq

/-- State of the remote Bakabooru service relevant to one reconciliation:
category list, tag list, and the post being synced. -/
structure RemoteState where
  categories : List ManagedCategory
  tags : List ManagedTag
  post : RemotePost
deriving DecidableEq

/-- Modelled from the spec: the target catalog assigns a fresh id on
category creation. -/
def freshCategoryId (s : RemoteState) : Nat :=
  (s.categories.map ManagedCategory.id).foldr max 0 + 1

/-- Modelled from the spec: the target catalog assigns a fresh id on tag
creation. -/
def freshTagId (s : RemoteState) : Nat :=
  (s.tags.map ManagedTag.id).foldr max 0 + 1

/-- Modelled from the spec: category creation
(`BakabooruClient.create_category`) creates and echoes the category. -/
def remoteCreateCategory (s : RemoteState) (name color : String) (order : Int) :
    ManagedCategory × RemoteState :=
  let c : ManagedCategory := { id := freshCategoryId s, name := name, color := color, order := order }
  (c, { s with categories := s.categories ++ [c] })

/-- Modelled from the spec: tag creation (`BakabooruClient.create_tag`)
creates and echoes the tag. -/
def remoteCreateTag (s : RemoteState) (name : String) (category_id : Option Nat) :
    ManagedTag × RemoteState :=
  let t : ManagedTag := { id := freshTagId s, name := name, category_id := category_id }
  (t, { s with tags := s.tags ++ [t] })

/-- Modelled from the spec: tag update (`BakabooruClient.update_tag`)
rewrites name and category of the tag with the given id and echoes the
result. -/
def remoteUpdateTag (s : RemoteState) (tag_id : Nat) (name : String) (category_id : Option Nat) :
    ManagedTag × RemoteState :=
  let t : ManagedTag := { id := tag_id, name := name, category_id := category_id }
  (t, { s with tags := s.tags.map (fun u => if u.id = tag_id then t else u) })

/-- Modelled from the spec: tag attachment
(`BakabooruClient.add_tag_to_post`) reports an already-attached tag as a
409 conflict, otherwise attaches and returns 2xx. -/
def remoteAddTagToPost (s : RemoteState) (tag_name : String) : Bool × Nat × RemoteState :=
  if tag_name ∈ s.post.tagNames then (false, 409, s)
  else (true, 200, { s with post := { s.post with tagNames := s.post.tagNames ++ [tag_name] } })

/-- `BakabooruClient.get_post_sources`: strips entries and drops empty
ones. -/
def remoteGetPostSources (s : RemoteState) : List String :=
  (s.post.sources.map pyStrip).filter (fun v => v ≠ "")

/-- Modelled from the spec: source replacement
(`BakabooruClient.set_post_sources`) overwrites the post's source list
wholesale. -/
def remoteSetPostSources (s : RemoteState) (sources : List String) : RemoteState :=
  { s with post := { s.post with sources := sources } }

/-- Count of remote calls performed by the migrator. -/
structure WriteLog where
  catCreates : Nat
  tagCreates : Nat
  tagUpdates : Nat
  attachCalls : Nat
  attachAdds : Nat
  sourceReads : Nat
  sourceReplaces : Nat
deriving DecidableEq

/-- The all-zero call log of a freshly constructed migrator. -/
def WriteLog.init : WriteLog := ⟨0, 0, 0, 0, 0, 0, 0⟩

/-! ## The `Migrator` -/

/-- The `Migrator`'s state: the remote it talks to, the Oxibooru category
metadata and the two in-memory indexes, the dry-run flag, and the call
log. -/
structure MigratorState where
  remote : RemoteState
  oxi_categories : List (String × OxiCategoryMeta)
  categories_by_name : List (String × ManagedCategory)
  tags_by_name : List (String × ManagedTag)
  dry_run : Bool
  log : WriteLog
deriving DecidableEq

/-- The dict comprehension keying categories by normalized name. -/
def buildCategoriesIndex (cats : List ManagedCategory) : List (String × ManagedCategory) :=
  cats.foldl (fun m c => dictSet m (normalize_name c.name) c) []

/-- The dict comprehension keying tags by normalized name. -/
def buildTagsIndex (tags : List ManagedTag) : List (String × ManagedTag) :=
  tags.foldl (fun m t => dictSet m (normalize_name t.name) t) []

/-- `Migrator.__init__`: loads Oxibooru category metadata and builds the
in-memory category and tag indexes from full remote listings. -/
def initMigrator (remote : RemoteState) (oxiCatsRaw : List OxiCatRaw) (dry_run : Bool) :
    MigratorState :=
  { remote := remote
  , oxi_categories := get_tag_categories oxiCatsRaw
  , categories_by_name := buildCategoriesIndex remote.categories
  , tags_by_name := buildTagsIndex remote.tags
  , dry_run := dry_run
  , log := WriteLog.init }

/-- `Migrator.ensure_category`. -/
def ensure_category (st : MigratorState) (category_name : Option String) :
    Option Nat × MigratorState :=
  match category_name with
  | none => (none, st)
  | some cn =>
    if pyStrip cn = "" then (none, st)
    else
      let key := normalize_name cn
      match dictGet st.categories_by_name key with
      | some existing => (some existing.id, st)
      | none =>
        let source := dictGet st.oxi_categories key
        let color := match source with
          | some m => if m.color = "" then "#808080" else m.color
          | none => "#808080"
        let order : Int := match source with
          | some m => m.order
          | none => 0
        let display_name := pyStrip (match source with
          | some m => if m.name = "" then cn else m.name
          | none => cn)
        if st.dry_run then (none, st)
        else
          let (created, r) := remoteCreateCategory st.remote display_name color order
          (some created.id,
            { st with
                remote := r
              , categories_by_name := dictSet st.categories_by_name key created
              , log := { st.log with catCreates := st.log.catCreates + 1 } })

/-- `Migrator.ensure_tag`. -/
def ensure_tag (st : MigratorState) (tag_name : String) (category_id : Option Nat) :
    Option ManagedTag × MigratorState :=
  let key := normalize_name tag_name
  match dictGet st.tags_by_name key with
  | some existing =>
    if existing.category_id ≠ category_id then
      if st.dry_run then (some existing, st)
      else
        let (updated, r) := remoteUpdateTag st.remote existing.id existing.name category_id
        (some updated,
          { st with
              remote := r
            , tags_by_name := dictSet st.tags_by_name key updated
            , log := { st.log with tagUpdates := st.log.tagUpdates + 1 } })
    else (some existing, st)
  | none =>
    if st.dry_run then (none, st)
    else
      let (created, r) := remoteCreateTag st.remote tag_name category_id
      (some created,
        { st with
            remote := r
          , tags_by_name := dictSet st.tags_by_name key created
          , log := { st.log with tagCreates := st.log.tagCreates + 1 } })

/-- Parse of one entry of the origin post's tag list, mirroring the head of
the loop body of `Migrator.migrate_post_tags`: a non-object entry raises
(the Python attribute access fails); otherwise the canonical normalized
name and the category argument handed to `ensure_category`, or `none` when
the loop skips the entry. -/
def oxiTagParse : Json → Except String (Option (String × Option String))
  | .obj f =>
    match pyOrEmptyList (Json.get f "names") with
    | .arr ns =>
      match ns with
      | [] => .ok none
      | n :: _ =>
        let canonical := pyStrip (pyStr n)
        if canonical = "" then .ok none
        else
          let c := normalize_name canonical
          let category_arg := match Json.get f "category" with
            | none => none
            | some v => if v.isFalsy then none else some (pyStr v)
          .ok (some (c, category_arg))
    | _ => .ok none
  | _ => .error "origin tag entry is not an object"

/-- The loop of `Migrator.migrate_post_tags`, threading the migrator state,
the current-post-tag set, the seen set and both counters. -/
def migrate_post_tags_go (st : MigratorState) (current : List String)
    (seen : List String) (discovered added : Nat) :
    List Json → Except String (Nat × Nat × MigratorState)
  | [] => .ok (discovered, added, st)
  | jt :: rest =>
    match oxiTagParse jt with
    | .error e => .error e
    | .ok none => migrate_post_tags_go st current seen discovered added rest
    | .ok (some (c, category_arg)) =>
      if c ∈ seen then migrate_post_tags_go st current seen discovered added rest
      else
        let seen2 := c :: seen
        let disc2 := discovered + 1
        let (category_id, st1) := ensure_category st category_arg
        let (_, st2) := ensure_tag st1 c category_id
        if c ∈ current then migrate_post_tags_go st2 current seen2 disc2 added rest
        else if st2.dry_run then
          migrate_post_tags_go st2 (c :: current) seen2 disc2 (added + 1) rest
        else
          match remoteAddTagToPost st2.remote c with
          | (true, _, r) =>
            migrate_post_tags_go
              { st2 with
                  remote := r
                , log := { st2.log with
                    attachCalls := st2.log.attachCalls + 1
                  , attachAdds := st2.log.attachAdds + 1 } }
              (c :: current) seen2 disc2 (added + 1) rest
          | (false, status, r) =>
            if status = 409 then
              migrate_post_tags_go
                { st2 with
                    remote := r
                  , log := { st2.log with attachCalls := st2.log.attachCalls + 1 } }
                (c :: current) seen2 disc2 added rest
            else
              migrate_post_tags_go
                { st2 with
                    remote := r
                  , log := { st2.log with attachCalls := st2.log.attachCalls + 1 } }
                current seen2 disc2 added rest

/-- The `current_post_tags` set computed at the top of
`Migrator.migrate_post_tags` from the post's tag names (a
membership-equivalent list model of the Python set). -/
def currentTagSet (post_tag_names : List String) : List String :=
  post_tag_names.filterMap (fun n => if pyStrip n = "" then none else some (normalize_name n))

/-- `Migrator.migrate_post_tags` (the post id only routes the remote call
and is implicit in the single-post remote model). -/
def migrate_post_tags (st : MigratorState) (post_tag_names : List String)
    (oxi_tags : List Json) : Except String (Nat × Nat × MigratorState) :=
  migrate_post_tags_go st (currentTagSet post_tag_names) [] 0 0 oxi_tags

/-- `Migrator.migrate_post_sources`. -/
def migrate_post_sources (st : MigratorState) (oxi_post : List (String × Json)) :
    (Nat × Nat) × MigratorState :=
  let oxi_sources := extract_oxibooru_sources oxi_post
  let discovered := oxi_sources.length
  if discovered = 0 then ((0, 0), st)
  else
    let current_sources := remoteGetPostSources st.remote
    let st1 := { st with log := { st.log with sourceReads := st.log.sourceReads + 1 } }
    let current_lookup := current_sources.map pyStrip
    let to_add := oxi_sources.filter (fun s => pyStrip s ∉ current_lookup)
    if to_add = [] then ((discovered, 0), st1)
    else if st1.dry_run then ((discovered, to_add.length), st1)
    else
      ((discovered, to_add.length),
        { st1 with
            remote := remoteSetPostSources st1.remote (current_sources ++ to_add)
          , log := { st1.log with sourceReplaces := st1.log.sourceReplaces + 1 } })

/-- One full per-post reconciliation as driven from `main` on a matched
post: construct a fresh `Migrator` from the remote listings, sync tags,
then sync sources. -/
def runReconcile (remote : RemoteState) (oxiCatsRaw : List OxiCatRaw)
    (oxi_tags : List Json) (oxi_post : List (String × Json)) (dry_run : Bool) :
    Except String MigratorState :=
  let st := initMigrator remote oxiCatsRaw dry_run
  match migrate_post_tags st remote.post.tagNames oxi_tags with
  | .error e => .error e
  | .ok (_, _, st1) =>
    let (_, st2) := migrate_post_sources st1 oxi_post
    .ok st2

/-! ## Predicates for the idempotency argument -/

/-- The post's attached tags, normalized the way `migrate_post_tags`
normalizes them. -/
def curView (r : RemoteState) : List String :=
  currentTagSet r.post.tagNames

/-- The binding a fresh `buildTagsIndex` would give key `k` (the last tag
whose normalized name is `k`). -/
def tagLookup (ts : List ManagedTag) (k : String) : Option ManagedTag :=
  ts.reverse.find? (fun t => normalize_name t.name == k)

/-- The binding a fresh `buildCategoriesIndex` would give key `k`. -/
def catLookup (cs : List ManagedCategory) (k : String) : Option ManagedCategory :=
  cs.reverse.find? (fun c => normalize_name c.name == k)

/-- Run invariant: both in-memory indexes agree pointwise with a fresh
index build from the remote, and remote tag ids are pairwise distinct. -/
def MigInv (st : MigratorState) : Prop :=
  (∀ k, dictGet st.tags_by_name k = tagLookup st.remote.tags k) ∧
  (∀ k, dictGet st.categories_by_name k = catLookup st.remote.categories k) ∧
  (st.remote.tags.map ManagedTag.id).Nodup

/-- Well-formedness of the Oxibooru category metadata dict, true by
construction of `get_tag_categories`: every stored name is trimmed,
non-empty, and normalizes back to its key. -/
def OxiCatsWF (st : MigratorState) : Prop :=
  ∀ k m, dictGet st.oxi_categories k = some m →
    pyStrip m.name = m.name ∧ m.name ≠ "" ∧ normalize_name m.name = k

/-- The category id `ensure_category` resolves when no create is needed. -/
def catIdAt (st : MigratorState) (category_arg : Option String) : Option Nat :=
  match category_arg with
  | none => none
  | some cn =>
    if pyStrip cn = "" then none
    else (dictGet st.categories_by_name (normalize_name cn)).map ManagedCategory.id

/-- The category argument resolves without a remote write. -/
def CatDone (st : MigratorState) (category_arg : Option String) : Prop :=
  match category_arg with
  | none => True
  | some cn =>
    pyStrip cn = "" ∨ ∃ c, dictGet st.categories_by_name (normalize_name cn) = some c

/-- One origin tag is fully applied: its category needs no create, the tag
index binds it with exactly the category that would be requested, and it is
attached to the post. -/
def TagFull (st : MigratorState) (c : String) (category_arg : Option String) : Prop :=
  CatDone st category_arg ∧
  (∃ t, dictGet st.tags_by_name c = some t ∧ t.category_id = catIdAt st category_arg) ∧
  c ∈ curView st.remote

/-- Every origin tag entry is fully applied, relative to the `seen` trace
(an entry whose canonical name is in `seen` was handled by an earlier
occurrence). -/
def PendSat (st : MigratorState) : List String → List Json → Prop
  | _, [] => True
  | seen, jt :: rest =>
    match oxiTagParse jt with
    | .error _ => False
    | .ok none => PendSat st seen rest
    | .ok (some (c, category_arg)) =>
      if c ∈ seen then PendSat st seen rest
      else TagFull st c category_arg ∧ PendSat st (c :: seen) rest

/-! ## Batch driver skeleton (`main`) -/

/-- Outcome of the per-item pipeline (content fetch, decode, reverse
search, match selection, tag sync, source sync), abstracted as an oracle:
the pipeline either raises with a message or yields the match kind and the
counter deltas it produced. -/
inductive ItemOutcome where
  | noMatch (kind : String)
  | matched (kind : String) (discT addT discS addS : Nat)

/-- One post as seen by the batch loop. -/
structure BatchItem where
  id : Nat
  contentType : String
  outcome : Except String ItemOutcome

/-- The counters accumulated by `main`. -/
structure Counters where
  scanned : Nat
  processed : Nat
  matched : Nat
  exactMatched : Nat
  similarMatched : Nat
  tooFarSimilar : Nat
  skippedType : Nat
  failed : Nat
  discoveredTags : Nat
  addedTags : Nat
  discoveredSources : Nat
  addedSources : Nat
deriving DecidableEq

/-- All counters start at zero. -/
def Counters.zero : Counters := ⟨0, 0, 0, 0, 0, 0, 0, 0, 0, 0, 0, 0⟩

/-- The script's `is_supported_content_type` (startswith checks done on the
character list). -/
def is_supported_content_type (content_type : String) : Bool :=
  let l := (pyLower content_type).data
  if l.take 6 = "video/".data then false
  else l.take 6 = "image/".data

/-- The counter bookkeeping `main` performs on a successfully processed
item. -/
def applyOutcome (c : Counters) (out : ItemOutcome) : Counters :=
  match out with
  | .noMatch kind =>
    if kind = "too_far" then { c with tooFarSimilar := c.tooFarSimilar + 1 } else c
  | .matched kind dT aT dS aS =>
    let c1 := { c with matched := c.matched + 1 }
    let c2 :=
      if kind = "exact" then { c1 with exactMatched := c1.exactMatched + 1 }
      else if kind = "similar" then { c1 with similarMatched := c1.similarMatched + 1 }
      else c1
    { c2 with
        discoveredTags := c2.discoveredTags + dT
      , addedTags := c2.addedTags + aT
      , discoveredSources := c2.discoveredSources + dS
      , addedSources := c2.addedSources + aS }

/-- Whether the max-posts cap fires for the next item. -/
def capReached (max_posts : Option Nat) (scanned : Nat) : Bool :=
  match max_posts with
  | some m => decide (m ≤ scanned)
  | none => false

/-- Result of the per-item loop: fell off the end of the page, or returned
early with an exit code. -/
inductive LoopOut where
  | finished (c : Counters) (failedIds : List Nat)
  | exited (code : Nat) (c : Counters) (failedIds : List Nat)

/-- The per-item loop of `main` over one page: max-posts cap check before
each item, media-type filter, and try/except failure isolation with
optional fail-fast. `failedIds` records the post id logged with each
caught per-item failure. -/
def runItems (fail_fast : Bool) (max_posts : Option Nat) :
    List BatchItem → Counters → List Nat → LoopOut
  | [], c, ids => .finished c ids
  | it :: rest, c, ids =>
    if capReached max_posts c.scanned then .exited 0 c ids
    else
      let c1 := { c with scanned := c.scanned + 1 }
      if ¬ is_supported_content_type it.contentType then
        runItems fail_fast max_posts rest { c1 with skippedType := c1.skippedType + 1 } ids
      else
        let c2 := { c1 with processed := c1.processed + 1 }
        match it.outcome with
        | .error _ =>
          let c3 := { c2 with failed := c2.failed + 1 }
          if fail_fast then .exited 1 c3 (ids ++ [it.id])
          else runItems fail_fast max_posts rest c3 (ids ++ [it.id])
        | .ok out => runItems fail_fast max_posts rest (applyOutcome c2 out) ids

/-- The page loop of `main`: consumes successive page payloads, stops on an
empty page or a short page, and propagates early exits. Returns the process
exit code, the final counters, and the failure log. -/
def runPages (fail_fast : Bool) (max_posts : Option Nat) (page_size : Nat) :
    List (List BatchItem) → Counters → List Nat → Nat × Counters × List Nat
  | [], c, ids => (0, c, ids)
  | items :: rest, c, ids =>
    if items.isEmpty then (0, c, ids)
    else
      match runItems fail_fast max_posts items c ids with
      | .exited code c2 ids2 => (code, c2, ids2)
      | .finished c2 ids2 =>
        if items.length < page_size then (0, c2, ids2)
        else runPages fail_fast max_posts page_size rest c2 ids2

/-- An item that reaches the try block and whose pipeline raises. -/
def itemFails (it : BatchItem) : Bool :=
  is_supported_content_type it.contentType &&
    (match it.outcome with | .error _ => true | .ok _ => false)

/-! ## String lemmas -/

theorem toNat_charOfNat (n : Nat) (h : n.isValidChar) : (Char.ofNat n).toNat = n := by
  simp only [Char.ofNat, dif_pos h]
  simp [Char.ofNatAux, Char.toNat, UInt32.toNat]

theorem charLower_toNat (c : Char) :
    (charLower c).toNat = if 65 ≤ c.toNat ∧ c.toNat ≤ 90 then c.toNat + 32 else c.toNat := by
  by_cases h : 65 ≤ c.toNat ∧ c.toNat ≤ 90
  · have hv : (c.toNat + 32).isValidChar := by
      left
      omega
    simp [charLower, h, toNat_charOfNat _ hv]
  · simp [charLower, h]

theorem char_toNat_inj {a b : Char} (h : a.toNat = b.toNat) : a = b := by
  apply Char.ext
  exact UInt32.ext h

theorem charLower_not_upper (c : Char) :
    ¬ (65 ≤ (charLower c).toNat ∧ (charLower c).toNat ≤ 90) := by
  rw [charLower_toNat]
  by_cases h : 65 ≤ c.toNat ∧ c.toNat ≤ 90
  · rw [if_pos h]
    omega
  · rw [if_neg h]
    omega

theorem charLower_idem (c : Char) : charLower (charLower c) = charLower c := by
  apply char_toNat_inj
  rw [charLower_toNat (charLower c), if_neg (charLower_not_upper c)]

theorem isPyWs_charLower (c : Char) : isPyWs (charLower c) = isPyWs c := by
  by_cases h : 65 ≤ c.toNat ∧ c.toNat ≤ 90
  · have h1 : (charLower c).toNat = c.toNat + 32 := by
      rw [charLower_toNat, if_pos h]
    simp only [isPyWs, h1]
    rw [decide_eq_decide]
    omega
  · have h1 : (charLower c).toNat = c.toNat := by
      rw [charLower_toNat, if_neg h]
    simp only [isPyWs, h1]

theorem dropWhile_self_idem {α : Type} (p : α → Bool) (l : List α) :
    (l.dropWhile p).dropWhile p = l.dropWhile p := by
  induction l with
  | nil => simp
  | cons a t ih =>
    by_cases h : p a
    · simp [List.dropWhile_cons, h, ih]
    · simp [List.dropWhile_cons, h]

theorem dropWhile_eq_cons_head_false {α : Type} (p : α → Bool) (l : List α) (a : α) (t : List α)
    (h : l.dropWhile p = a :: t) : p a = false := by
  induction l with
  | nil => simp at h
  | cons b r ih =>
    by_cases hb : p b
    · rw [List.dropWhile_cons, if_pos hb] at h
      exact ih h
    · rw [List.dropWhile_cons, if_neg hb] at h
      cases h
      exact Bool.not_eq_true _ ▸ (by simpa using hb)

theorem stripList_sub_dropWhile (l : List Char) :
    ∃ k, l.dropWhile isPyWs = stripList l ++ k := by
  unfold stripList
  obtain ⟨k, hk⟩ : ∃ k, (l.dropWhile isPyWs).reverse = k ++ ((l.dropWhile isPyWs).reverse.dropWhile isPyWs) := by
    refine ⟨(l.dropWhile isPyWs).reverse.takeWhile isPyWs, ?_⟩
    rw [List.takeWhile_append_dropWhile]
  refine ⟨k.reverse, ?_⟩
  calc l.dropWhile isPyWs = (l.dropWhile isPyWs).reverse.reverse := by rw [List.reverse_reverse]
    _ = (k ++ ((l.dropWhile isPyWs).reverse.dropWhile isPyWs)).reverse := by rw [← hk]
    _ = ((l.dropWhile isPyWs).reverse.dropWhile isPyWs).reverse ++ k.reverse := by
          rw [List.reverse_append]

theorem stripList_idem (l : List Char) : stripList (stripList l) = stripList l := by
  rcases h : stripList l with _ | ⟨a, t⟩
  · simp [stripList]
  · -- the head of `stripList l` is the head of `l.dropWhile isPyWs`, hence not whitespace
    obtain ⟨k, hk⟩ := stripList_sub_dropWhile l
    rw [h] at hk
    have ha : isPyWs a = false := dropWhile_eq_cons_head_false isPyWs l a (t ++ k) (by simpa using hk)
    have h1 : (stripList l).dropWhile isPyWs = stripList l := by
      rw [h, List.dropWhile_cons, if_neg (by simp [ha])]
    have h2 : (stripList l).reverse.dropWhile isPyWs = (stripList l).reverse := by
      have hrev : (stripList l).reverse = (l.dropWhile isPyWs).reverse.dropWhile isPyWs := by
        simp [stripList]
      rw [hrev, dropWhile_self_idem]
    rw [← h]
    calc stripList (stripList l)
        = (((stripList l).dropWhile isPyWs).reverse.dropWhile isPyWs).reverse := rfl
      _ = ((stripList l).reverse.dropWhile isPyWs).reverse := by rw [h1]
      _ = (stripList l).reverse.reverse := by rw [h2]
      _ = stripList l := List.reverse_reverse _

theorem pyStrip_idem (s : String) : pyStrip (pyStrip s) = pyStrip s := by
  apply String.ext
  simp [pyStrip, stripList_idem]

theorem pyLower_idem (s : String) : pyLower (pyLower s) = pyLower s := by
  apply String.ext
  simp only [pyLower, List.map_map]
  congr 1
  funext c
  exact charLower_idem c

theorem stripList_map_charLower (l : List Char) :
    stripList (l.map charLower) = (stripList l).map charLower := by
  have hfun : (isPyWs ∘ charLower) = isPyWs := by
    funext c
    exact isPyWs_charLower c
  simp [stripList, List.dropWhile_map, hfun, ← List.map_reverse]

theorem pyStrip_pyLower_comm (s : String) : pyStrip (pyLower s) = pyLower (pyStrip s) := by
  apply String.ext
  simp [pyStrip, pyLower, stripList_map_charLower]

theorem normalize_name_idem (s : String) :
    normalize_name (normalize_name s) = normalize_name s := by
  unfold normalize_name
  rw [pyStrip_pyLower_comm, pyStrip_idem, pyLower_idem]

theorem normalize_name_pyStrip (s : String) :
    normalize_name (pyStrip s) = normalize_name s := by
  unfold normalize_name
  rw [pyStrip_idem]

theorem pyStrip_normalize_name (s : String) :
    pyStrip (normalize_name s) = normalize_name s := by
  unfold normalize_name
  rw [pyStrip_pyLower_comm, pyStrip_idem]

theorem pyLower_length (s : String) : (pyLower s).data.length = s.data.length := by
  simp [pyLower]

theorem normalize_name_ne_empty (s : String) (h : pyStrip s = s) (hne : s ≠ "") :
    normalize_name s ≠ "" := by
  unfold normalize_name
  rw [h]
  intro hc
  apply hne
  have hlen := congrArg (fun t => t.data.length) hc
  simp only [pyLower, List.length_map] at hlen
  have hdata : s.data = [] := by
    apply List.length_eq_zero.mp
    simpa using hlen
  apply String.ext
  rw [hdata]

/-! ## Match selector lemmas -/

theorem sortHead_spec (l : List (ℚ × Json)) (hne : l ≠ []) :
    ∃ b r, sortByDistance l = b :: r ∧ (∀ x ∈ l, b.1 ≤ x.1) ∧
      l.find? (fun x => decide (x.1 = b.1)) = some b := by
  induction l with
  | nil => cases hne rfl
  | cons a t ih =>
    cases t with
    | nil =>
      refine ⟨a, [], rfl, ?_, ?_⟩
      · intro x hx
        rcases List.mem_singleton.mp hx with rfl
        exact le_refl _
      · simp [List.find?_cons]
    | cons a2 t2 =>
      obtain ⟨b, r, hs, hmin, hfind⟩ := ih (by simp)
      by_cases h : a.1 ≤ b.1
      · refine ⟨a, b :: r, ?_, ?_, ?_⟩
        · show insertByDistance a (sortByDistance (a2 :: t2)) = a :: b :: r
          rw [hs]
          simp [insertByDistance, h]
        · intro x hx
          rcases List.mem_cons.mp hx with rfl | hx
          · exact le_refl _
          · exact le_trans h (hmin x hx)
        · simp [List.find?_cons]
      · have hlt : b.1 < a.1 := not_le.mp h
        refine ⟨b, insertByDistance a r, ?_, ?_, ?_⟩
        · show insertByDistance a (sortByDistance (a2 :: t2)) = b :: insertByDistance a r
          rw [hs]
          simp [insertByDistance, h]
        · intro x hx
          rcases List.mem_cons.mp hx with rfl | hx
          · exact le_of_lt hlt
          · exact hmin x hx
        · rw [List.find?_cons]
          have hd : (decide (a.1 = b.1)) = false := by
            simp [ne_of_gt hlt]
          rw [hd]
          exact hfind

theorem select_no_exact (rr : List (String × Json)) (maxD : ℚ)
    (hex : ∀ f, Json.get rr "exactPost" ≠ some (.obj f)) :
    select_reverse_search_match rr maxD = selectSimilar (Json.get rr "similarPosts") maxD := by
  unfold select_reverse_search_match
  rcases h : Json.get rr "exactPost" with _ | v
  · rfl
  · cases v with
    | obj f => exact absurd h (hex f)
    | null => rfl
    | bool b => rfl
    | num q => rfl
    | str s => rfl
    | arr l => rfl

theorem selectSimilar_kind (v : Option Json) (maxD : ℚ) :
    (selectSimilar v maxD).2.1 = "none" ∨ (selectSimilar v maxD).2.1 = "similar" ∨
      (selectSimilar v maxD).2.1 = "too_far" := by
  unfold selectSimilar
  rcases pyOrEmptyList v with _ | b | q | s | items | f
  · simp
  · simp
  · simp
  · simp
  · by_cases hi : items.isEmpty
    · simp [hi]
    · rcases hs : sortByDistance (parseCandidates items) with _ | ⟨best, r⟩
      · simp [hi, hs]
      · by_cases hb : best.1 > maxD
        · simp [hi, hs, hb]
        · simp [hi, hs, hb]
  · simp

/-- C4: for every reverse-search result whose exact match is present as an
object, the selector returns that exact post with kind "exact" and
distance 0.0, whatever the similar candidates contain. -/
theorem claim_C4 (reverse_result : List (String × Json)) (max_similar_distance : ℚ)
    (ef : List (String × Json))
    (h : Json.get reverse_result "exactPost" = some (.obj ef)) :
    select_reverse_search_match reverse_result max_similar_distance
      = (some (.obj ef), "exact", some 0) := by
  unfold select_reverse_search_match
  rw [h]

theorem claim_C4_witness :
    select_reverse_search_match
      [("exactPost", Json.obj [("id", Json.num 7)]),
       ("similarPosts", Json.arr [Json.obj [("post", Json.obj []), ("distance", Json.num 9)]])]
      (1/20)
      = (some (Json.obj [("id", Json.num 7)]), "exact", some 0) :=
  claim_C4 _ _ _ rfl

/-- C10: an `exactPost` value that is present but not an object is not
returned as an exact match and raises nothing: the result is exactly the
similar-candidate classification. -/
theorem claim_C10 (rr : List (String × Json)) (maxD : ℚ) (v : Json)
    (hget : Json.get rr "exactPost" = some v)
    (hv : ∀ f, v ≠ Json.obj f) :
    select_reverse_search_match rr maxD = selectSimilar (Json.get rr "similarPosts") maxD ∧
      (select_reverse_search_match rr maxD).2.1 ≠ "exact" := by
  have hex : ∀ f, Json.get rr "exactPost" ≠ some (.obj f) := by
    intro f hc
    rw [hget] at hc
    exact hv f (Option.some.inj hc)
  have h1 := select_no_exact rr maxD hex
  refine ⟨h1, ?_⟩
  rw [h1]
  rcases selectSimilar_kind (Json.get rr "similarPosts") maxD with h | h | h <;>
    rw [h] <;> decide

theorem claim_C10_witness :
    select_reverse_search_match [("exactPost", Json.null)] (1/20)
        = selectSimilar (Json.get [("exactPost", Json.null)] "similarPosts") (1/20) ∧
      (select_reverse_search_match [("exactPost", Json.null)] (1/20)).2.1 ≠ "exact" :=
  claim_C10 _ _ _ rfl (fun f h => Json.noConfusion h)

/-- C6: with no exact match and a similar-candidate list that is absent,
empty, or entirely malformed, the selector classifies the result as
"none" with no post and no distance (never "too_far"). -/
theorem claim_C6 (rr : List (String × Json)) (maxD : ℚ)
    (hex : ∀ f, Json.get rr "exactPost" ≠ some (.obj f))
    (hmal : ∀ items, pyOrEmptyList (Json.get rr "similarPosts") = Json.arr items →
      ∀ i ∈ items, candParse i = none) :
    select_reverse_search_match rr maxD = (none, "none", none) := by
  rw [select_no_exact rr maxD hex]
  unfold selectSimilar
  rcases hv : pyOrEmptyList (Json.get rr "similarPosts") with _ | b | q | s | items | f
  · rfl
  · rfl
  · rfl
  · rfl
  · have hnil : parseCandidates items = [] := by
      apply List.filterMap_eq_nil_iff.mpr
      exact hmal items hv
    by_cases hi : items.isEmpty
    · simp [hi]
    · simp only [hi, if_false, Bool.false_eq_true]
      rw [hnil]
      rfl
  · rfl

theorem claim_C6_witness :
    select_reverse_search_match
      [("similarPosts", Json.arr [Json.str "junk", Json.obj [("distance", Json.num 1)]])]
      (1/20) = (none, "none", none) := by
  apply claim_C6
  · intro f h
    exact Option.noConfusion h
  · intro items hitems i hi
    have : items = [Json.str "junk", Json.obj [("distance", Json.num 1)]] :=
      (Json.arr.inj hitems).symm
    subst this
    rcases List.mem_cons.mp hi with rfl | hi
    · rfl
    · rcases List.mem_cons.mp hi with rfl | hi
      · rfl
      · cases hi

/-- C5: with no exact match and at least one well-formed candidate, the
selector picks the first-encountered candidate of minimum parsed distance
and classifies "similar" when that minimum is at most the threshold,
"too_far" (with no post) when it exceeds it. -/
theorem claim_C5 (rr : List (String × Json)) (maxD : ℚ) (items : List Json)
    (hex : ∀ f, Json.get rr "exactPost" ≠ some (.obj f))
    (hsim : pyOrEmptyList (Json.get rr "similarPosts") = Json.arr items)
    (hne : parseCandidates items ≠ []) :
    ∃ best, (∀ x ∈ parseCandidates items, best.1 ≤ x.1) ∧
      (parseCandidates items).find? (fun x => decide (x.1 = best.1)) = some best ∧
      select_reverse_search_match rr maxD =
        (if best.1 > maxD then (none, "too_far", some best.1)
         else (some best.2, "similar", some best.1)) := by
  obtain ⟨b, r, hs, hmin, hfind⟩ := sortHead_spec (parseCandidates items) hne
  refine ⟨b, hmin, hfind, ?_⟩
  rw [select_no_exact rr maxD hex]
  unfold selectSimilar
  rw [hsim]
  have hlist : items ≠ [] := by
    intro hc
    apply hne
    rw [hc]
    rfl
  simp only [List.isEmpty_eq_true, hlist, if_false]
  rw [hs]

theorem claim_C5_witness :
    ∃ best,
      (∀ x ∈ parseCandidates
          [Json.obj [("post", Json.obj [("id", Json.num 1)]), ("distance", Json.num (3/10))],
           Json.obj [("post", Json.obj [("id", Json.num 2)]), ("distance", Json.num (1/10))]],
        best.1 ≤ x.1) ∧
      (parseCandidates
          [Json.obj [("post", Json.obj [("id", Json.num 1)]), ("distance", Json.num (3/10))],
           Json.obj [("post", Json.obj [("id", Json.num 2)]), ("distance", Json.num (1/10))]]).find?
        (fun x => decide (x.1 = best.1)) = some best ∧
      select_reverse_search_match
        [("similarPosts", Json.arr
          [Json.obj [("post", Json.obj [("id", Json.num 1)]), ("distance", Json.num (3/10))],
           Json.obj [("post", Json.obj [("id", Json.num 2)]), ("distance", Json.num (1/10))]])]
        (1/5) =
        (if best.1 > (1/5 : ℚ) then (none, "too_far", some best.1)
         else (some best.2, "similar", some best.1)) :=
  claim_C5 _ _ _ (fun f h => Option.noConfusion h) rfl (fun h => List.noConfusion h)

/-! ## Source extractor lemmas -/

theorem pyLower_eq_empty_iff (s : String) : pyLower s = "" ↔ s = "" := by
  constructor
  · intro h
    have hlen := congrArg (fun t => t.data.length) h
    simp only [pyLower, List.length_map] at hlen
    apply String.ext
    apply List.length_eq_zero.mp
    simpa using hlen
  · intro h
    rw [h]
    rfl

theorem extract_eq_dedupLoop (oxi_post : List (String × Json)) :
    extract_oxibooru_sources oxi_post
      = dedupLoop [] (sourceCandidates (Json.get oxi_post "source")) := by
  unfold extract_oxibooru_sources sourceCandidates
  rcases Json.get oxi_post "source" with _ | v
  · rfl
  · cases v <;> rfl

theorem dedupLoop_mem_strip (cs : List String) :
    ∀ seen, ∀ s ∈ dedupLoop seen cs, pyStrip s = s ∧ s ≠ "" := by
  induction cs with
  | nil => intro seen s hs; cases hs
  | cons c cs ih =>
    intro seen s hs
    by_cases h0 : pyStrip c = ""
    · rw [show dedupLoop seen (c :: cs) = dedupLoop seen cs by simp [dedupLoop, h0]] at hs
      exact ih seen s hs
    · by_cases h1 : pyLower (pyStrip c) ∈ seen
      · rw [show dedupLoop seen (c :: cs) = dedupLoop seen cs by simp [dedupLoop, h0, h1]] at hs
        exact ih seen s hs
      · rw [show dedupLoop seen (c :: cs)
              = pyStrip c :: dedupLoop (pyLower (pyStrip c) :: seen) cs by
            simp [dedupLoop, h0, h1]] at hs
        rcases List.mem_cons.mp hs with rfl | hs
        · exact ⟨pyStrip_idem c, h0⟩
        · exact ih _ s hs

theorem dedupLoop_keys (cs : List String) :
    ∀ seen, (∀ s ∈ dedupLoop seen cs, pyLower s ∉ seen) ∧
      ((dedupLoop seen cs).map pyLower).Nodup := by
  induction cs with
  | nil => intro seen; exact ⟨fun s hs => absurd hs (List.not_mem_nil s), List.nodup_nil⟩
  | cons c cs ih =>
    intro seen
    by_cases h0 : pyStrip c = ""
    · rw [show dedupLoop seen (c :: cs) = dedupLoop seen cs by simp [dedupLoop, h0]]
      exact ih seen
    · by_cases h1 : pyLower (pyStrip c) ∈ seen
      · rw [show dedupLoop seen (c :: cs) = dedupLoop seen cs by simp [dedupLoop, h0, h1]]
        exact ih seen
      · rw [show dedupLoop seen (c :: cs)
              = pyStrip c :: dedupLoop (pyLower (pyStrip c) :: seen) cs by
            simp [dedupLoop, h0, h1]]
        obtain ⟨ihf, ihn⟩ := ih (pyLower (pyStrip c) :: seen)
        constructor
        · intro s hs
          rcases List.mem_cons.mp hs with rfl | hs
          · exact h1
          · intro hc
            exact (ihf s hs) (List.mem_cons_of_mem _ hc)
        · rw [List.map_cons]
          apply List.nodup_cons.mpr
          refine ⟨?_, ihn⟩
          intro hc
          obtain ⟨s, hs, hls⟩ := List.mem_map.mp hc
          have hnot := ihf s hs
          rw [hls] at hnot
          exact hnot (List.mem_cons_self _ _)

theorem dedupLoop_sublist (cs : List String) :
    ∀ seen, List.Sublist (dedupLoop seen cs) (cs.map pyStrip) := by
  induction cs with
  | nil => intro seen; simp [dedupLoop]
  | cons c cs ih =>
    intro seen
    by_cases h0 : pyStrip c = ""
    · rw [show dedupLoop seen (c :: cs) = dedupLoop seen cs by simp [dedupLoop, h0]]
      exact List.Sublist.cons _ (ih seen)
    · by_cases h1 : pyLower (pyStrip c) ∈ seen
      · rw [show dedupLoop seen (c :: cs) = dedupLoop seen cs by simp [dedupLoop, h0, h1]]
        exact List.Sublist.cons _ (ih seen)
      · rw [show dedupLoop seen (c :: cs)
              = pyStrip c :: dedupLoop (pyLower (pyStrip c) :: seen) cs by
            simp [dedupLoop, h0, h1]]
        exact List.Sublist.cons₂ _ (ih _)

theorem dedupLoop_first (cs : List String) :
    ∀ seen, ∀ s ∈ dedupLoop seen cs,
      ∃ c₀, cs.find? (fun c => pyLower (pyStrip c) == pyLower s) = some c₀ ∧ pyStrip c₀ = s := by
  induction cs with
  | nil => intro seen s hs; cases hs
  | cons c cs ih =>
    intro seen s hs
    by_cases h0 : pyStrip c = ""
    · rw [show dedupLoop seen (c :: cs) = dedupLoop seen cs by simp [dedupLoop, h0]] at hs
      obtain ⟨hstrip, hne⟩ := dedupLoop_mem_strip cs seen s hs
      have hpred : (pyLower (pyStrip c) == pyLower s) = false := by
        rw [h0]
        apply beq_eq_false_iff_ne.mpr
        intro hc
        exact ((pyLower_eq_empty_iff s).mp hc.symm ▸ hne) rfl
      rw [List.find?_cons, hpred]
      exact ih seen s hs
    · by_cases h1 : pyLower (pyStrip c) ∈ seen
      · rw [show dedupLoop seen (c :: cs) = dedupLoop seen cs by simp [dedupLoop, h0, h1]] at hs
        have hfresh := (dedupLoop_keys cs seen).1 s hs
        have hpred : (pyLower (pyStrip c) == pyLower s) = false := by
          apply beq_eq_false_iff_ne.mpr
          intro hc
          exact hfresh (hc ▸ h1)
        rw [List.find?_cons, hpred]
        exact ih seen s hs
      · rw [show dedupLoop seen (c :: cs)
              = pyStrip c :: dedupLoop (pyLower (pyStrip c) :: seen) cs by
            simp [dedupLoop, h0, h1]] at hs
        rcases List.mem_cons.mp hs with rfl | hs
        · refine ⟨c, ?_, rfl⟩
          rw [List.find?_cons, show (pyLower (pyStrip c) == pyLower (pyStrip c)) = true from beq_self_eq_true _]
        · have hfresh := (dedupLoop_keys cs (pyLower (pyStrip c) :: seen)).1 s hs
          have hpred : (pyLower (pyStrip c) == pyLower s) = false := by
            apply beq_eq_false_iff_ne.mpr
            intro hc
            exact hfresh (hc ▸ List.mem_cons_self _ _)
          rw [List.find?_cons, hpred]
          exact ih _ s hs

theorem dedupLoop_complete (cs : List String) :
    ∀ seen, ∀ c ∈ cs, pyStrip c ≠ "" →
      pyLower (pyStrip c) ∈ seen ∨
        ∃ s ∈ dedupLoop seen cs, pyLower s = pyLower (pyStrip c) := by
  induction cs with
  | nil => intro seen c hc; cases hc
  | cons c0 cs ih =>
    intro seen c hc hne
    by_cases h0 : pyStrip c0 = ""
    · rcases List.mem_cons.mp hc with rfl | hc
      · exact absurd h0 hne
      · rw [show dedupLoop seen (c0 :: cs) = dedupLoop seen cs by simp [dedupLoop, h0]]
        exact ih seen c hc hne
    · by_cases h1 : pyLower (pyStrip c0) ∈ seen
      · rw [show dedupLoop seen (c0 :: cs) = dedupLoop seen cs by simp [dedupLoop, h0, h1]]
        rcases List.mem_cons.mp hc with rfl | hc
        · exact Or.inl h1
        · exact ih seen c hc hne
      · rw [show dedupLoop seen (c0 :: cs)
              = pyStrip c0 :: dedupLoop (pyLower (pyStrip c0) :: seen) cs by
            simp [dedupLoop, h0, h1]]
        rcases List.mem_cons.mp hc with rfl | hc
        · exact Or.inr ⟨pyStrip c, List.mem_cons_self _ _, rfl⟩
        · rcases ih (pyLower (pyStrip c0) :: seen) c hc hne with hl | ⟨s, hs, hls⟩
          · rcases List.mem_cons.mp hl with heq | hl
            · exact Or.inr ⟨pyStrip c0, List.mem_cons_self _ _, heq.symm⟩
            · exact Or.inl hl
          · exact Or.inr ⟨s, List.mem_cons_of_mem _ hs, hls⟩

/-- C7: the source extractor returns an ordered, deduplicated list of
trimmed non-empty strings in first-seen order with first-seen casing
retained, keyed on the lower-cased trimmed value; strings are split on
line breaks, non-string list entries are dropped, and any other shape
yields the empty list. -/
theorem claim_C7 (oxi_post : List (String × Json)) :
    (∀ s ∈ extract_oxibooru_sources oxi_post, pyStrip s = s ∧ s ≠ "") ∧
    ((extract_oxibooru_sources oxi_post).map pyLower).Nodup ∧
    List.Sublist (extract_oxibooru_sources oxi_post)
      ((sourceCandidates (Json.get oxi_post "source")).map pyStrip) ∧
    (∀ s ∈ extract_oxibooru_sources oxi_post,
      ∃ c₀, (sourceCandidates (Json.get oxi_post "source")).find?
          (fun c => pyLower (pyStrip c) == pyLower s) = some c₀ ∧ pyStrip c₀ = s) ∧
    (∀ c ∈ sourceCandidates (Json.get oxi_post "source"), pyStrip c ≠ "" →
      ∃ s ∈ extract_oxibooru_sources oxi_post, pyLower s = pyLower (pyStrip c)) ∧
    (match Json.get oxi_post "source" with
     | some (.str _) => True
     | some (.arr _) => True
     | _ => extract_oxibooru_sources oxi_post = []) := by
  rw [extract_eq_dedupLoop]
  refine ⟨dedupLoop_mem_strip _ [], (dedupLoop_keys _ []).2, dedupLoop_sublist _ [],
    dedupLoop_first _ [], ?_, ?_⟩
  · intro c hc hne
    rcases dedupLoop_complete _ [] c hc hne with hl | hr
    · cases hl
    · exact hr
  · unfold sourceCandidates
    rcases Json.get oxi_post "source" with _ | v
    · simp [dedupLoop]
    · cases v <;> simp [dedupLoop]

/-! ## Dict lemmas -/

theorem dictGet_dictSet {α : Type} (m : List (String × α)) (k k2 : String) (v : α) :
    dictGet (dictSet m k v) k2 = if k = k2 then some v else dictGet m k2 := by
  unfold dictGet dictSet
  rw [List.find?_cons]
  by_cases h : k = k2
  · simp [h]
  · have : ((k, v).1 == k2) = false := beq_eq_false_iff_ne.mpr h
    rw [this, if_neg h]

theorem dictGet_dictSet_self {α : Type} (m : List (String × α)) (k : String) (v : α) :
    dictGet (dictSet m k v) k = some v := by
  rw [dictGet_dictSet, if_pos rfl]

theorem dictGet_dictSet_other {α : Type} (m : List (String × α)) (k k2 : String) (v : α)
    (h : k ≠ k2) : dictGet (dictSet m k v) k2 = dictGet m k2 := by
  rw [dictGet_dictSet, if_neg h]

/-! ## Claim C2: ensure_tag and the absent-category request -/

/-- C2 counterexample: with an existing tag `cat` carrying category 5 and a
`None` requested category, `ensure_tag` takes the update branch and clears
the category assignment — refuting the claim that an absent requested
category never triggers the update branch. -/
theorem claim_C2_counterexample :
    (ensure_tag
        (initMigrator
          { categories := [], tags := [⟨1, "cat", some 5⟩]
          , post := { tagNames := [], sources := [] } } [] false)
        "cat" none).2.log.tagUpdates = 1 ∧
    dictGet (ensure_tag
        (initMigrator
          { categories := [], tags := [⟨1, "cat", some 5⟩]
          , post := { tagNames := [], sources := [] } } [] false)
        "cat" none).2.tags_by_name "cat" = some ⟨1, "cat", none⟩ := by
  constructor
  · decide
  · decide

/-- C2 (amended): for an existing tag, `ensure_tag` takes the update branch
exactly when the requested category id differs from the current one — with
the requested id compared as-is, so an absent (`None`) request against a
present current category also updates, clearing the assignment. -/
theorem claim_C2 (st : MigratorState) (tag_name : String) (category_id : Option Nat)
    (t : ManagedTag) (hdry : st.dry_run = false)
    (hfound : dictGet st.tags_by_name (normalize_name tag_name) = some t) :
    (t.category_id = category_id → ensure_tag st tag_name category_id = (some t, st)) ∧
    (t.category_id ≠ category_id →
      (ensure_tag st tag_name category_id).1 = some ⟨t.id, t.name, category_id⟩ ∧
      dictGet (ensure_tag st tag_name category_id).2.tags_by_name (normalize_name tag_name)
        = some ⟨t.id, t.name, category_id⟩ ∧
      (ensure_tag st tag_name category_id).2.log.tagUpdates = st.log.tagUpdates + 1) := by
  constructor
  · intro heq
    simp only [ensure_tag]
    rw [hfound]
    simp [heq]
  · intro hne
    simp only [ensure_tag]
    rw [hfound]
    simp only [ne_eq, hne, not_false_eq_true, if_true, hdry, Bool.false_eq_true, if_false,
      remoteUpdateTag]
    refine ⟨trivial, ?_, trivial⟩
    exact dictGet_dictSet_self _ _ _

theorem claim_C2_witness :
    ((⟨1, "x", some 4⟩ : ManagedTag).category_id = some 4 →
      ensure_tag
        (initMigrator
          { categories := [], tags := [⟨1, "x", some 4⟩]
          , post := { tagNames := [], sources := [] } } [] false)
        "x" (some 4)
        = (some ⟨1, "x", some 4⟩,
            initMigrator
              { categories := [], tags := [⟨1, "x", some 4⟩]
              , post := { tagNames := [], sources := [] } } [] false)) ∧
    ((⟨1, "x", some 4⟩ : ManagedTag).category_id ≠ some 4 →
      (ensure_tag
          (initMigrator
            { categories := [], tags := [⟨1, "x", some 4⟩]
            , post := { tagNames := [], sources := [] } } [] false)
          "x" (some 4)).1 = some ⟨1, "x", some 4⟩ ∧
      dictGet (ensure_tag
          (initMigrator
            { categories := [], tags := [⟨1, "x", some 4⟩]
            , post := { tagNames := [], sources := [] } } [] false)
          "x" (some 4)).2.tags_by_name (normalize_name "x") = some ⟨1, "x", some 4⟩ ∧
      (ensure_tag
          (initMigrator
            { categories := [], tags := [⟨1, "x", some 4⟩]
            , post := { tagNames := [], sources := [] } } [] false)
          "x" (some 4)).2.log.tagUpdates
        = (initMigrator
            { categories := [], tags := [⟨1, "x", some 4⟩]
            , post := { tagNames := [], sources := [] } } [] false).log.tagUpdates + 1) :=
  claim_C2 _ "x" (some 4) ⟨1, "x", some 4⟩ rfl (by decide)

/-! ## Claims C1 and C8: migrate_post_sources -/

theorem extract_keys_nodup (oxi_post : List (String × Json)) :
    ((extract_oxibooru_sources oxi_post).map pyLower).Nodup := by
  rw [extract_eq_dedupLoop]
  exact (dedupLoop_keys _ []).2

theorem extract_mem_strip (oxi_post : List (String × Json)) :
    ∀ s ∈ extract_oxibooru_sources oxi_post, pyStrip s = s ∧ s ≠ "" := by
  rw [extract_eq_dedupLoop]
  exact dedupLoop_mem_strip _ []

theorem mps_empty (st : MigratorState) (oxi_post : List (String × Json))
    (h : (extract_oxibooru_sources oxi_post).length = 0) :
    migrate_post_sources st oxi_post = ((0, 0), st) := by
  simp only [migrate_post_sources]
  rw [if_pos h]

theorem mps_noadd (st : MigratorState) (oxi_post : List (String × Json))
    (h0 : ¬ (extract_oxibooru_sources oxi_post).length = 0)
    (h1 : (extract_oxibooru_sources oxi_post).filter
        (fun s => pyStrip s ∉ (remoteGetPostSources st.remote).map pyStrip) = []) :
    migrate_post_sources st oxi_post
      = (((extract_oxibooru_sources oxi_post).length, 0),
         { st with log := { st.log with sourceReads := st.log.sourceReads + 1 } }) := by
  simp only [migrate_post_sources]
  rw [if_neg h0, if_pos h1]

theorem mps_add (st : MigratorState) (oxi_post : List (String × Json))
    (h0 : ¬ (extract_oxibooru_sources oxi_post).length = 0)
    (h1 : (extract_oxibooru_sources oxi_post).filter
        (fun s => pyStrip s ∉ (remoteGetPostSources st.remote).map pyStrip) ≠ [])
    (hdry : st.dry_run = false) :
    migrate_post_sources st oxi_post
      = (((extract_oxibooru_sources oxi_post).length,
          ((extract_oxibooru_sources oxi_post).filter
            (fun s => pyStrip s ∉ (remoteGetPostSources st.remote).map pyStrip)).length),
         { st with
             remote := remoteSetPostSources st.remote
               (remoteGetPostSources st.remote ++
                 (extract_oxibooru_sources oxi_post).filter
                   (fun s => pyStrip s ∉ (remoteGetPostSources st.remote).map pyStrip))
           , log := { st.log with
               sourceReads := st.log.sourceReads + 1
             , sourceReplaces := st.log.sourceReplaces + 1 } }) := by
  simp only [migrate_post_sources]
  rw [if_neg h0, if_neg h1, hdry]
  rw [if_neg (by simp)]

/-- C1 counterexample: with current sources `["http://A.com"]` and origin
source `"http://a.com"`, the sync appends the origin source even though it
is already present under case/whitespace-insensitive comparison, leaving a
case-insensitive duplicate — refuting the claim as stated. -/
theorem claim_C1_counterexample :
    (migrate_post_sources
        (initMigrator
          { categories := [], tags := []
          , post := { tagNames := [], sources := ["http://A.com"] } } [] false)
        [("source", Json.str "http://a.com")]).2.remote.post.sources
      = ["http://A.com", "http://a.com"] ∧
    normalize_name "http://a.com" = normalize_name "http://A.com" ∧
    ¬ ((["http://A.com", "http://a.com"].map normalize_name).Nodup) := by
  refine ⟨?_, ?_, ?_⟩
  · decide
  · decide
  · decide

/-- C1 (amended): syncSources appends an origin source only if its trimmed
form is not already present under trimmed case-SENSITIVE comparison
against the item's current sources; the appended batch is itself free of
duplicates under case-insensitive comparison (its entries are already
trimmed), but against pre-existing sources only exact trimmed matches are
deduplicated. -/
theorem claim_C1 (st : MigratorState) (oxi_post : List (String × Json))
    (hdry : st.dry_run = false) :
    (migrate_post_sources st oxi_post).2.remote.post.sources = st.remote.post.sources ∨
    ∃ newSrcs, newSrcs ≠ [] ∧
      (migrate_post_sources st oxi_post).2.remote.post.sources
        = remoteGetPostSources st.remote ++ newSrcs ∧
      (∀ s ∈ newSrcs, s ∈ extract_oxibooru_sources oxi_post ∧
        pyStrip s ∉ (remoteGetPostSources st.remote).map pyStrip) ∧
      (newSrcs.map pyLower).Nodup := by
  by_cases h0 : (extract_oxibooru_sources oxi_post).length = 0
  · left
    rw [mps_empty st oxi_post h0]
  · by_cases h1 : (extract_oxibooru_sources oxi_post).filter
        (fun s => pyStrip s ∉ (remoteGetPostSources st.remote).map pyStrip) = []
    · left
      rw [mps_noadd st oxi_post h0 h1]
    · right
      refine ⟨(extract_oxibooru_sources oxi_post).filter
        (fun s => pyStrip s ∉ (remoteGetPostSources st.remote).map pyStrip), h1, ?_, ?_, ?_⟩
      · rw [mps_add st oxi_post h0 h1 hdry]
        rfl
      · intro s hs
        obtain ⟨hmem, hcond⟩ := List.mem_filter.mp hs
        exact ⟨hmem, of_decide_eq_true hcond⟩
      · have hsub : List.Sublist
            ((extract_oxibooru_sources oxi_post).filter
              (fun s => pyStrip s ∉ (remoteGetPostSources st.remote).map pyStrip))
            (extract_oxibooru_sources oxi_post) := List.filter_sublist _
        exact (extract_keys_nodup oxi_post).sublist (hsub.map pyLower)

theorem claim_C1_witness :
    (migrate_post_sources
        (initMigrator
          { categories := [], tags := []
          , post := { tagNames := [], sources := ["http://b.com"] } } [] false)
        [("source", Json.arr [Json.str "http://a.com", Json.str "http://b.com"])]).2.remote.post.sources
      = (initMigrator
          { categories := [], tags := []
          , post := { tagNames := [], sources := ["http://b.com"] } } [] false).remote.post.sources ∨
    ∃ newSrcs, newSrcs ≠ [] ∧
      (migrate_post_sources
          (initMigrator
            { categories := [], tags := []
            , post := { tagNames := [], sources := ["http://b.com"] } } [] false)
          [("source", Json.arr [Json.str "http://a.com", Json.str "http://b.com"])]).2.remote.post.sources
        = remoteGetPostSources (initMigrator
            { categories := [], tags := []
            , post := { tagNames := [], sources := ["http://b.com"] } } [] false).remote ++ newSrcs ∧
      (∀ s ∈ newSrcs,
        s ∈ extract_oxibooru_sources
              [("source", Json.arr [Json.str "http://a.com", Json.str "http://b.com"])] ∧
        pyStrip s ∉ (remoteGetPostSources (initMigrator
            { categories := [], tags := []
            , post := { tagNames := [], sources := ["http://b.com"] } } [] false).remote).map pyStrip) ∧
      (newSrcs.map pyLower).Nodup :=
  claim_C1 _ _ rfl

/-- C8: an empty extracted origin source list short-circuits to (0, 0)
with no remote read and no write; otherwise exactly one read happens and,
when there is anything to add, exactly one replace call whose payload is
the current source list unchanged and in order followed by the new
sources. -/
theorem claim_C8 (st : MigratorState) (oxi_post : List (String × Json))
    (hdry : st.dry_run = false) :
    (extract_oxibooru_sources oxi_post = [] →
      migrate_post_sources st oxi_post = ((0, 0), st)) ∧
    (extract_oxibooru_sources oxi_post ≠ [] →
      (migrate_post_sources st oxi_post).2.log.sourceReads = st.log.sourceReads + 1 ∧
      (((migrate_post_sources st oxi_post).2.remote = st.remote ∧
          (migrate_post_sources st oxi_post).2.log.sourceReplaces = st.log.sourceReplaces) ∨
        ∃ newSrcs, newSrcs ≠ [] ∧
          (migrate_post_sources st oxi_post).2.remote.post.sources
            = remoteGetPostSources st.remote ++ newSrcs ∧
          (∀ s ∈ newSrcs, s ∈ extract_oxibooru_sources oxi_post) ∧
          (migrate_post_sources st oxi_post).2.log.sourceReplaces
            = st.log.sourceReplaces + 1 ∧
          (migrate_post_sources st oxi_post).1
            = ((extract_oxibooru_sources oxi_post).length, newSrcs.length))) := by
  constructor
  · intro hempty
    exact mps_empty st oxi_post (by rw [hempty]; rfl)
  · intro hne
    have h0 : ¬ (extract_oxibooru_sources oxi_post).length = 0 := by
      intro hc
      exact hne (List.length_eq_zero.mp hc)
    by_cases h1 : (extract_oxibooru_sources oxi_post).filter
        (fun s => pyStrip s ∉ (remoteGetPostSources st.remote).map pyStrip) = []
    · rw [mps_noadd st oxi_post h0 h1]
      exact ⟨rfl, Or.inl ⟨rfl, rfl⟩⟩
    · rw [mps_add st oxi_post h0 h1 hdry]
      refine ⟨rfl, Or.inr ⟨(extract_oxibooru_sources oxi_post).filter
        (fun s => pyStrip s ∉ (remoteGetPostSources st.remote).map pyStrip),
        h1, rfl, ?_, rfl, rfl⟩⟩
      intro s hs
      exact (List.mem_filter.mp hs).1

theorem claim_C8_witness :
    (extract_oxibooru_sources [("source", Json.str " x ")] = [] →
      migrate_post_sources
        (initMigrator { categories := [], tags := [], post := { tagNames := [], sources := [] } } [] false)
        [("source", Json.str " x ")]
        = ((0, 0), initMigrator { categories := [], tags := [], post := { tagNames := [], sources := [] } } [] false)) ∧
    (extract_oxibooru_sources [("source", Json.str " x ")] ≠ [] →
      (migrate_post_sources
          (initMigrator { categories := [], tags := [], post := { tagNames := [], sources := [] } } [] false)
          [("source", Json.str " x ")]).2.log.sourceReads
        = (initMigrator { categories := [], tags := [], post := { tagNames := [], sources := [] } } [] false).log.sourceReads + 1 ∧
      (((migrate_post_sources
            (initMigrator { categories := [], tags := [], post := { tagNames := [], sources := [] } } [] false)
            [("source", Json.str " x ")]).2.remote
          = (initMigrator { categories := [], tags := [], post := { tagNames := [], sources := [] } } [] false).remote ∧
          (migrate_post_sources
            (initMigrator { categories := [], tags := [], post := { tagNames := [], sources := [] } } [] false)
            [("source", Json.str " x ")]).2.log.sourceReplaces
          = (initMigrator { categories := [], tags := [], post := { tagNames := [], sources := [] } } [] false).log.sourceReplaces) ∨
        ∃ newSrcs, newSrcs ≠ [] ∧
          (migrate_post_sources
            (initMigrator { categories := [], tags := [], post := { tagNames := [], sources := [] } } [] false)
            [("source", Json.str " x ")]).2.remote.post.sources
            = remoteGetPostSources (initMigrator { categories := [], tags := [], post := { tagNames := [], sources := [] } } [] false).remote ++ newSrcs ∧
          (∀ s ∈ newSrcs, s ∈ extract_oxibooru_sources [("source", Json.str " x ")]) ∧
          (migrate_post_sources
            (initMigrator { categories := [], tags := [], post := { tagNames := [], sources := [] } } [] false)
            [("source", Json.str " x ")]).2.log.sourceReplaces
            = (initMigrator { categories := [], tags := [], post := { tagNames := [], sources := [] } } [] false).log.sourceReplaces + 1 ∧
          (migrate_post_sources
            (initMigrator { categories := [], tags := [], post := { tagNames := [], sources := [] } } [] false)
            [("source", Json.str " x ")]).1
            = ((extract_oxibooru_sources [("source", Json.str " x ")]).length,
               newSrcs.length))) :=
  claim_C8 _ _ rfl

/-! ## Claim C9: batch driver failure isolation -/

theorem applyOutcome_frame (c : Counters) (out : ItemOutcome) :
    (applyOutcome c out).scanned = c.scanned ∧
    (applyOutcome c out).processed = c.processed ∧
    (applyOutcome c out).failed = c.failed := by
  cases out with
  | noMatch kind =>
    simp only [applyOutcome]
    split_ifs <;> exact ⟨rfl, rfl, rfl⟩
  | matched kind dT aT dS aS =>
    simp only [applyOutcome]
    split_ifs <;> exact ⟨rfl, rfl, rfl⟩

theorem itemFails_elim (it : BatchItem) (h : itemFails it = true) :
    is_supported_content_type it.contentType = true ∧ ∃ e, it.outcome = Except.error e := by
  unfold itemFails at h
  rcases ho : it.outcome with e | out
  · rw [ho] at h
    simp only [Bool.and_eq_true] at h
    exact ⟨h.1, e, rfl⟩
  · rw [ho] at h
    simp at h

theorem itemFails_ok (it : BatchItem) (out : ItemOutcome) (h : it.outcome = Except.ok out) :
    itemFails it = false := by
  unfold itemFails
  rw [h]
  simp

theorem runItems_false_exit (mp : Option Nat) (items : List BatchItem) :
    ∀ c ids code c2 ids2,
      runItems false mp items c ids = LoopOut.exited code c2 ids2 → code = 0 := by
  induction items with
  | nil =>
    intro c ids code c2 ids2 h
    simp only [runItems] at h
    cases h
  | cons it rest ih =>
    intro c ids code c2 ids2 h
    simp only [runItems] at h
    by_cases hcap : capReached mp c.scanned = true
    · rw [if_pos hcap] at h
      cases h
      rfl
    · rw [if_neg hcap] at h
      by_cases hsup : is_supported_content_type it.contentType = true
      · rw [if_neg (by simp [hsup])] at h
        rcases ho : it.outcome with e | out
        · rw [ho] at h
          simp only [Bool.false_eq_true, if_false] at h
          exact ih _ _ _ _ _ h
        · rw [ho] at h
          exact ih _ _ _ _ _ h
      · rw [if_pos (by simp [hsup])] at h
        exact ih _ _ _ _ _ h

theorem runPages_false_exit (mp : Option Nat) (ps : Nat) (pages : List (List BatchItem)) :
    ∀ c ids, (runPages false mp ps pages c ids).1 = 0 := by
  induction pages with
  | nil => intro c ids; rfl
  | cons items rest ih =>
    intro c ids
    simp only [runPages]
    by_cases he : items.isEmpty
    · rw [if_pos he]
    · rw [if_neg he]
      rcases hr : runItems false mp items c ids with ⟨c2, ids2⟩ | ⟨code, c2, ids2⟩
      · by_cases hs : items.length < ps
        · simp [hs]
        · simp only [hs, if_false]
          exact ih c2 ids2
      · have := runItems_false_exit mp items c ids code c2 ids2 hr
        simp [this]

theorem runItems_false_none_spec (items : List BatchItem) :
    ∀ c ids, ∃ c2,
      runItems false none items c ids
        = LoopOut.finished c2 (ids ++ (items.filter itemFails).map BatchItem.id) ∧
      c2.failed = c.failed + (items.filter itemFails).length ∧
      c2.scanned = c.scanned + items.length ∧
      c2.processed = c.processed
        + (items.filter (fun it => is_supported_content_type it.contentType)).length := by
  induction items with
  | nil =>
    intro c ids
    exact ⟨c, by simp [runItems], by simp, by simp, by simp⟩
  | cons it rest ih =>
    intro c ids
    have hcap : capReached none c.scanned = false := rfl
    by_cases hsup : is_supported_content_type it.contentType = true
    · rcases ho : it.outcome with e | out
      · -- supported, pipeline raises: counted, logged, loop continues
        have hfail : itemFails it = true := by
          unfold itemFails
          rw [ho, hsup]
          rfl
        obtain ⟨c2, hrun, hf, hs, hp⟩ := ih
          { c with scanned := c.scanned + 1, processed := c.processed + 1,
                   failed := c.failed + 1 }
          (ids ++ [it.id])
        refine ⟨c2, ?_, ?_, ?_, ?_⟩
        · show runItems false none (it :: rest) c ids = _
          simp only [runItems, hcap, Bool.false_eq_true, if_false, hsup, not_true_eq_false, ho]
          rw [hrun]
          simp only [List.filter_cons, hfail, if_true, List.map_cons, List.append_assoc]
          rfl
        · rw [hf]
          simp only [List.filter_cons, hfail, if_true, List.length_cons]
          omega
        · rw [hs]
          simp only [List.length_cons]
          omega
        · rw [hp]
          simp only [List.filter_cons, hsup, if_true, List.length_cons]
          omega
      · -- supported, pipeline succeeds
        have hfail : itemFails it = false := itemFails_ok it out ho
        obtain ⟨c2, hrun, hf, hs, hp⟩ := ih
          (applyOutcome { c with scanned := c.scanned + 1, processed := c.processed + 1 } out)
          ids
        obtain ⟨ha1, ha2, ha3⟩ := applyOutcome_frame
          { c with scanned := c.scanned + 1, processed := c.processed + 1 } out
        refine ⟨c2, ?_, ?_, ?_, ?_⟩
        · show runItems false none (it :: rest) c ids = _
          simp only [runItems, hcap, Bool.false_eq_true, if_false, hsup, not_true_eq_false, ho]
          rw [hrun]
          simp only [List.filter_cons, hfail, Bool.false_eq_true, if_false]
        · rw [hf, ha3]
          simp only [List.filter_cons, hfail, Bool.false_eq_true, if_false]
        · rw [hs, ha1]
          simp only [List.length_cons]
          omega
        · rw [hp, ha2]
          simp only [List.filter_cons, hsup, if_true, List.length_cons]
          omega
    · -- unsupported media type: skipped, not failed
      have hfail : itemFails it = false := by
        unfold itemFails
        rw [Bool.eq_false_iff.mpr hsup]
        rfl
      obtain ⟨c2, hrun, hf, hs, hp⟩ := ih
        { c with scanned := c.scanned + 1, skippedType := c.skippedType + 1 } ids
      refine ⟨c2, ?_, ?_, ?_, ?_⟩
      · show runItems false none (it :: rest) c ids = _
        simp only [runItems, hcap, Bool.false_eq_true, if_false, hsup, not_false_eq_true,
          if_true]
        rw [hrun]
        simp only [List.filter_cons, hfail, Bool.false_eq_true, if_false]
      · rw [hf]
        simp only [List.filter_cons, hfail, Bool.false_eq_true, if_false]
      · rw [hs]
        simp only [List.length_cons]
        omega
      · rw [hp]
        simp only [List.filter_cons, hsup, Bool.false_eq_true, if_false]

theorem runItems_true_first_failure (pre : List BatchItem) :
    ∀ (bad : BatchItem) (post : List BatchItem) c ids,
      (∀ it ∈ pre, itemFails it = false) → itemFails bad = true →
      ∃ c2, runItems true none (pre ++ bad :: post) c ids
          = LoopOut.exited 1 c2 (ids ++ [bad.id]) ∧
        c2.failed = c.failed + 1 := by
  induction pre with
  | nil =>
    intro bad post c ids _ hbad
    obtain ⟨hsup, e, ho⟩ := itemFails_elim bad hbad
    refine ⟨{ c with scanned := c.scanned + 1, processed := c.processed + 1, failed := c.failed + 1 }, ?_, rfl⟩
    show runItems true none (bad :: post) c ids = _
    simp only [runItems, capReached, Bool.false_eq_true, if_false, hsup, not_true_eq_false,
      ho, if_true]
  | cons it pre ih =>
    intro bad post c ids hpre hbad
    have hit : itemFails it = false := hpre it (List.mem_cons_self _ _)
    have hcap : capReached none c.scanned = false := rfl
    by_cases hsup : is_supported_content_type it.contentType = true
    · rcases ho : it.outcome with e | out
      · exfalso
        have : itemFails it = true := by
          unfold itemFails
          rw [ho, hsup]
          rfl
        rw [this] at hit
        cases hit
      · obtain ⟨c2, hrun, hf⟩ := ih bad post
          (applyOutcome { c with scanned := c.scanned + 1, processed := c.processed + 1 } out)
          ids (fun x hx => hpre x (List.mem_cons_of_mem _ hx)) hbad
        obtain ⟨_, _, ha3⟩ := applyOutcome_frame
          { c with scanned := c.scanned + 1, processed := c.processed + 1 } out
        refine ⟨c2, ?_, ?_⟩
        · show runItems true none ((it :: pre) ++ bad :: post) c ids = _
          simp only [List.cons_append, runItems, hcap, Bool.false_eq_true, if_false, hsup,
            not_true_eq_false, ho, if_true]
          exact hrun
        · rw [hf, ha3]
    · obtain ⟨c2, hrun, hf⟩ := ih bad post
        { c with scanned := c.scanned + 1, skippedType := c.skippedType + 1 } ids
        (fun x hx => hpre x (List.mem_cons_of_mem _ hx)) hbad
      refine ⟨c2, ?_, ?_⟩
      · show runItems true none ((it :: pre) ++ bad :: post) c ids = _
        simp only [List.cons_append, runItems, hcap, Bool.false_eq_true, if_false, hsup,
          not_false_eq_true, if_true]
        exact hrun
      · rw [hf]

/-- C9: with fail-fast disabled a per-item exception is counted, logged
with the item's id, and processing continues (the final failure count is
the number of failing processed items and every item is still scanned),
and the run exits 0 whether it completes or is capped; with fail-fast
enabled the first per-item failure ends the run with exit code 1. -/
theorem claim_C9 :
    (∀ pages max_posts page_size c ids,
      (runPages false max_posts page_size pages c ids).1 = 0) ∧
    (∀ items c ids, ∃ c2,
      runItems false none items c ids
        = LoopOut.finished c2 (ids ++ (items.filter itemFails).map BatchItem.id) ∧
      c2.failed = c.failed + (items.filter itemFails).length ∧
      c2.scanned = c.scanned + items.length ∧
      c2.processed = c.processed
        + (items.filter (fun it => is_supported_content_type it.contentType)).length) ∧
    (∀ pre bad post c ids, (∀ it ∈ pre, itemFails it = false) → itemFails bad = true →
      ∃ c2, runItems true none (pre ++ bad :: post) c ids
          = LoopOut.exited 1 c2 (ids ++ [bad.id]) ∧
        c2.failed = c.failed + 1) :=
  ⟨fun pages mp ps c ids => runPages_false_exit mp ps pages c ids,
   fun items c ids => runItems_false_none_spec items c ids,
   fun pre bad post c ids hpre hbad => runItems_true_first_failure pre bad post c ids hpre hbad⟩

theorem claim_C9_witness :
    (∃ c2,
      runItems false none
        [⟨1, "image/png", Except.ok (ItemOutcome.matched "exact" 1 1 0 0)⟩,
         ⟨2, "image/png", Except.error "content fetch failed"⟩,
         ⟨3, "image/png", Except.ok (ItemOutcome.noMatch "none")⟩]
        Counters.zero []
        = LoopOut.finished c2
            ([] ++ (([⟨1, "image/png", Except.ok (ItemOutcome.matched "exact" 1 1 0 0)⟩,
               ⟨2, "image/png", Except.error "content fetch failed"⟩,
               ⟨3, "image/png", Except.ok (ItemOutcome.noMatch "none")⟩] : List BatchItem).filter
                itemFails).map BatchItem.id) ∧
      c2.failed = Counters.zero.failed
        + (([⟨1, "image/png", Except.ok (ItemOutcome.matched "exact" 1 1 0 0)⟩,
            ⟨2, "image/png", Except.error "content fetch failed"⟩,
            ⟨3, "image/png", Except.ok (ItemOutcome.noMatch "none")⟩] : List BatchItem).filter
              itemFails).length ∧
      c2.scanned = Counters.zero.scanned + 3 ∧
      c2.processed = Counters.zero.processed
        + (([⟨1, "image/png", Except.ok (ItemOutcome.matched "exact" 1 1 0 0)⟩,
            ⟨2, "image/png", Except.error "content fetch failed"⟩,
            ⟨3, "image/png", Except.ok (ItemOutcome.noMatch "none")⟩] : List BatchItem).filter
              (fun it => is_supported_content_type it.contentType)).length) ∧
    (∃ c2,
      runItems true none
        ([⟨1, "image/png", Except.ok (ItemOutcome.matched "exact" 1 1 0 0)⟩]
          ++ ⟨2, "image/png", Except.error "content fetch failed"⟩ ::
             [⟨3, "image/png", Except.ok (ItemOutcome.noMatch "none")⟩])
        Counters.zero []
        = LoopOut.exited 1 c2 ([] ++ [2]) ∧
      c2.failed = Counters.zero.failed + 1) :=
  ⟨claim_C9.2.1 _ Counters.zero [],
   claim_C9.2.2 _ _ _ Counters.zero []
     (by
       intro it hit
       rcases List.mem_singleton.mp hit with rfl
       rfl)
     rfl⟩

/-! ## Claim C3: idempotency of reconciliation — index lemmas -/

theorem foldl_pair_cons {α : Type} (f : α → String) (l : List α) :
    ∀ acc : List (String × α),
      l.foldl (fun m t => dictSet m (f t) t) acc
        = (l.map (fun t => (f t, t))).reverse ++ acc := by
  induction l with
  | nil => intro acc; simp
  | cons a t ih =>
    intro acc
    simp only [List.foldl_cons, List.map_cons, List.reverse_cons, List.append_assoc]
    rw [ih]
    rfl

theorem dictGet_buildTagsIndex (ts : List ManagedTag) (k : String) :
    dictGet (buildTagsIndex ts) k = tagLookup ts k := by
  unfold buildTagsIndex tagLookup
  rw [foldl_pair_cons (fun t => normalize_name t.name) ts, List.append_nil]
  unfold dictGet
  rw [← List.map_reverse, List.find?_map]
  rcases h : ((ts.reverse).find? ((fun p => p.1 == k) ∘ fun t => (normalize_name t.name, t))) with _ | u
  · rw [show ((ts.reverse).find? (fun t => normalize_name t.name == k))
        = ((ts.reverse).find? ((fun p => p.1 == k) ∘ fun t => (normalize_name t.name, t))) from rfl, h]
    rfl
  · rw [show ((ts.reverse).find? (fun t => normalize_name t.name == k))
        = ((ts.reverse).find? ((fun p => p.1 == k) ∘ fun t => (normalize_name t.name, t))) from rfl, h]
    rfl

theorem dictGet_buildCategoriesIndex (cs : List ManagedCategory) (k : String) :
    dictGet (buildCategoriesIndex cs) k = catLookup cs k := by
  unfold buildCategoriesIndex catLookup
  rw [foldl_pair_cons (fun c => normalize_name c.name) cs, List.append_nil]
  unfold dictGet
  rw [← List.map_reverse, List.find?_map]
  rcases h : ((cs.reverse).find? ((fun p => p.1 == k) ∘ fun c => (normalize_name c.name, c))) with _ | u
  · rw [show ((cs.reverse).find? (fun c => normalize_name c.name == k))
        = ((cs.reverse).find? ((fun p => p.1 == k) ∘ fun c => (normalize_name c.name, c))) from rfl, h]
    rfl
  · rw [show ((cs.reverse).find? (fun c => normalize_name c.name == k))
        = ((cs.reverse).find? ((fun p => p.1 == k) ∘ fun c => (normalize_name c.name, c))) from rfl, h]
    rfl

theorem migInv_init (remote : RemoteState) (oxiCatsRaw : List OxiCatRaw) (dry : Bool)
    (hids : (remote.tags.map ManagedTag.id).Nodup) :
    MigInv (initMigrator remote oxiCatsRaw dry) :=
  ⟨fun k => dictGet_buildTagsIndex remote.tags k,
   fun k => dictGet_buildCategoriesIndex remote.categories k,
   hids⟩

theorem get_tag_categories_wf_aux (raws : List OxiCatRaw) :
    ∀ acc : List (String × OxiCategoryMeta),
      (∀ k m, dictGet acc k = some m →
        pyStrip m.name = m.name ∧ m.name ≠ "" ∧ normalize_name m.name = k) →
      ∀ k m, dictGet (raws.foldl
          (fun m item =>
            let name := pyStrip item.name
            if name = "" then m
            else
              dictSet m (normalize_name name)
                { name := name
                , color := match item.color with
                    | none => "#808080"
                    | some c => if c = "" then "#808080" else c
                , order := match item.order with
                    | none => 0
                    | some o => o }) acc) k = some m →
        pyStrip m.name = m.name ∧ m.name ≠ "" ∧ normalize_name m.name = k := by
  induction raws with
  | nil => intro acc hacc; exact hacc
  | cons item rest ih =>
    intro acc hacc
    simp only [List.foldl_cons]
    by_cases h0 : pyStrip item.name = ""
    · rw [if_pos h0]
      exact ih acc hacc
    · rw [if_neg h0]
      apply ih
      intro k m hget
      rw [dictGet_dictSet] at hget
      by_cases hk : normalize_name (pyStrip item.name) = k
      · rw [if_pos hk] at hget
        cases hget
        refine ⟨pyStrip_idem _, h0, ?_⟩
        rw [normalize_name_pyStrip, ← normalize_name_pyStrip, hk]
      · rw [if_neg hk] at hget
        exact hacc k m hget

theorem oxiCatsWF_init (remote : RemoteState) (oxiCatsRaw : List OxiCatRaw) (dry : Bool) :
    OxiCatsWF (initMigrator remote oxiCatsRaw dry) := by
  intro k m h
  exact get_tag_categories_wf_aux oxiCatsRaw []
    (fun k m h => absurd h (by simp [dictGet])) k m h

theorem mem_le_foldr_max (l : List Nat) : ∀ x ∈ l, x ≤ l.foldr max 0 := by
  induction l with
  | nil => intro x hx; cases hx
  | cons a t ih =>
    intro x hx
    rcases List.mem_cons.mp hx with rfl | hx
    · exact le_max_left _ _
    · exact le_trans (ih x hx) (le_max_right _ _)

theorem tagLookup_append_one (ts : List ManagedTag) (t : ManagedTag) (k : String) :
    tagLookup (ts ++ [t]) k
      = if normalize_name t.name = k then some t else tagLookup ts k := by
  unfold tagLookup
  rw [List.reverse_append]
  show List.find? _ (t :: ts.reverse) = _
  rw [List.find?_cons]
  by_cases h : normalize_name t.name = k
  · rw [if_pos h]
    have : (normalize_name t.name == k) = true := beq_iff_eq.mpr h
    rw [this]
  · rw [if_neg h]
    have : (normalize_name t.name == k) = false := beq_eq_false_iff_ne.mpr h
    rw [this]

theorem catLookup_append_one (cs : List ManagedCategory) (c : ManagedCategory) (k : String) :
    catLookup (cs ++ [c]) k
      = if normalize_name c.name = k then some c else catLookup cs k := by
  unfold catLookup
  rw [List.reverse_append]
  show List.find? _ (c :: cs.reverse) = _
  rw [List.find?_cons]
  by_cases h : normalize_name c.name = k
  · rw [if_pos h]
    have : (normalize_name c.name == k) = true := beq_iff_eq.mpr h
    rw [this]
  · rw [if_neg h]
    have : (normalize_name c.name == k) = false := beq_eq_false_iff_ne.mpr h
    rw [this]

theorem find?_map_pred_eq {α : Type} (f : α → α) (p : α → Bool) (l : List α)
    (h : ∀ x ∈ l, p (f x) = p x) :
    (l.map f).find? p = (l.find? p).map f := by
  induction l with
  | nil => rfl
  | cons a t ih =>
    simp only [List.map_cons, List.find?_cons]
    rw [h a (List.mem_cons_self _ _)]
    rcases hp : p a with _ | _
    · exact ih (fun x hx => h x (List.mem_cons_of_mem _ hx))
    · rfl

theorem curView_mem_of_tagName (r : RemoteState) (x : String)
    (hx : x ∈ r.post.tagNames) (hne : pyStrip x ≠ "") :
    normalize_name x ∈ curView r := by
  unfold curView currentTagSet
  apply List.mem_filterMap.mpr
  exact ⟨x, hx, by rw [if_neg hne]⟩

/-! ## Claim C3: ensure_category and ensure_tag specifications -/

theorem catIdAt_eq_of_cats_eq (st st2 : MigratorState) (category_arg : Option String)
    (h : st2.categories_by_name = st.categories_by_name) :
    catIdAt st2 category_arg = catIdAt st category_arg := by
  cases category_arg with
  | none => rfl
  | some cn => simp [catIdAt, h]

theorem catDone_of_cats_eq (st st2 : MigratorState) (category_arg : Option String)
    (h : st2.categories_by_name = st.categories_by_name)
    (hd : CatDone st category_arg) : CatDone st2 category_arg := by
  cases category_arg with
  | none => trivial
  | some cn =>
    unfold CatDone at hd ⊢
    rw [h]
    exact hd

theorem ensure_category_noop (st : MigratorState) (category_arg : Option String)
    (h : CatDone st category_arg) :
    ensure_category st category_arg = (catIdAt st category_arg, st) := by
  cases category_arg with
  | none => rfl
  | some cn =>
    unfold CatDone at h
    by_cases hb : pyStrip cn = ""
    · simp only [ensure_category, catIdAt]
      rw [if_pos hb, if_pos hb]
    · rcases h with h | ⟨c0, hc0⟩
      · exact absurd h hb
      · simp only [ensure_category, catIdAt]
        rw [if_neg hb, if_neg hb, hc0]
        rfl

theorem ensure_tag_noop (st : MigratorState) (c : String) (cid : Option Nat) (t : ManagedTag)
    (hc : normalize_name c = c)
    (hfound : dictGet st.tags_by_name c = some t) (hcat : t.category_id = cid) :
    ensure_tag st c cid = (some t, st) := by
  simp only [ensure_tag]
  rw [hc, hfound]
  simp [hcat]

theorem TagFull_mono (st st2 : MigratorState) (c : String) (category_arg : Option String)
    (h : TagFull st c category_arg)
    (hcat : ∀ k v, dictGet st.categories_by_name k = some v →
      dictGet st2.categories_by_name k = some v)
    (htag : dictGet st2.tags_by_name c = dictGet st.tags_by_name c)
    (hcur : ∀ x ∈ curView st.remote, x ∈ curView st2.remote) :
    TagFull st2 c category_arg := by
  obtain ⟨hdone, ⟨t, hfind, hcid⟩, hattached⟩ := h
  have hsame : catIdAt st2 category_arg = catIdAt st category_arg := by
    cases category_arg with
    | none => rfl
    | some cn =>
      unfold CatDone at hdone
      by_cases hb : pyStrip cn = ""
      · simp [catIdAt, hb]
      · rcases hdone with hd | ⟨c0, hc0⟩
        · exact absurd hd hb
        · simp only [catIdAt]
          rw [if_neg hb, if_neg hb, hc0, hcat _ _ hc0]
  refine ⟨?_, ⟨t, ?_, ?_⟩, hcur c hattached⟩
  · cases category_arg with
    | none => trivial
    | some cn =>
      unfold CatDone at hdone ⊢
      rcases hdone with hd | ⟨c0, hc0⟩
      · exact Or.inl hd
      · exact Or.inr ⟨c0, hcat _ _ hc0⟩
  · rw [htag]
    exact hfind
  · rw [hsame]
    exact hcid

theorem ensure_category_spec (st : MigratorState) (category_arg : Option String)
    (hdry : st.dry_run = false) (hinv : MigInv st) (hwf : OxiCatsWF st) :
    MigInv (ensure_category st category_arg).2 ∧
    (ensure_category st category_arg).1
      = catIdAt (ensure_category st category_arg).2 category_arg ∧
    CatDone (ensure_category st category_arg).2 category_arg ∧
    (ensure_category st category_arg).2.tags_by_name = st.tags_by_name ∧
    (ensure_category st category_arg).2.remote.tags = st.remote.tags ∧
    (ensure_category st category_arg).2.remote.post = st.remote.post ∧
    (ensure_category st category_arg).2.dry_run = st.dry_run ∧
    (ensure_category st category_arg).2.oxi_categories = st.oxi_categories ∧
    (∀ k v, dictGet st.categories_by_name k = some v →
      dictGet (ensure_category st category_arg).2.categories_by_name k = some v) := by
  cases category_arg with
  | none =>
    exact ⟨hinv, rfl, trivial, rfl, rfl, rfl, rfl, rfl, fun k v h => h⟩
  | some cn =>
    by_cases hb : pyStrip cn = ""
    · rw [show ensure_category st (some cn) = (none, st) by
        simp only [ensure_category]; rw [if_pos hb]]
      refine ⟨hinv, ?_, Or.inl hb, rfl, rfl, rfl, rfl, rfl, fun k v h => h⟩
      simp [catIdAt, hb]
    · rcases hlook : dictGet st.categories_by_name (normalize_name cn) with _ | c0
      · -- category absent: create it
        rw [show ensure_category st (some cn)
            = (some (freshCategoryId st.remote),
               { st with
                   remote := { st.remote with categories := st.remote.categories ++
                     [{ id := freshCategoryId st.remote
                      , name := pyStrip (match dictGet st.oxi_categories (normalize_name cn) with
                          | some m => if m.name = "" then cn else m.name
                          | none => cn)
                      , color := (match dictGet st.oxi_categories (normalize_name cn) with
                          | some m => if m.color = "" then "#808080" else m.color
                          | none => "#808080")
                      , order := (match dictGet st.oxi_categories (normalize_name cn) with
                          | some m => m.order
                          | none => 0) }] }
                 , categories_by_name := dictSet st.categories_by_name (normalize_name cn)
                     { id := freshCategoryId st.remote
                     , name := pyStrip (match dictGet st.oxi_categories (normalize_name cn) with
                         | some m => if m.name = "" then cn else m.name
                         | none => cn)
                     , color := (match dictGet st.oxi_categories (normalize_name cn) with
                         | some m => if m.color = "" then "#808080" else m.color
                         | none => "#808080")
                     , order := (match dictGet st.oxi_categories (normalize_name cn) with
                         | some m => m.order
                         | none => 0) }
                 , log := { st.log with catCreates := st.log.catCreates + 1 } }) by
          simp only [ensure_category]
          rw [if_neg hb, hlook, hdry]
          rfl]
        -- name of the freshly created category normalizes back to the key
        have hname : normalize_name
            (pyStrip (match dictGet st.oxi_categories (normalize_name cn) with
              | some m => if m.name = "" then cn else m.name
              | none => cn)) = normalize_name cn := by
          rcases hm : dictGet st.oxi_categories (normalize_name cn) with _ | m
          · show normalize_name (pyStrip cn) = normalize_name cn
            rw [normalize_name_pyStrip]
          · obtain ⟨hms, hmne, hmk⟩ := hwf _ _ hm
            show normalize_name (pyStrip (if m.name = "" then cn else m.name))
              = normalize_name cn
            rw [if_neg hmne, normalize_name_pyStrip, hmk]
        constructor
        · -- the invariant after the create
          refine ⟨fun k => hinv.1 k, ?_, hinv.2.2⟩
          intro k
          show dictGet (dictSet st.categories_by_name (normalize_name cn) _) k
            = catLookup (st.remote.categories ++ [_]) k
          rw [dictGet_dictSet, catLookup_append_one]
          show _ = if normalize_name (pyStrip (match dictGet st.oxi_categories (normalize_name cn) with
              | some m => if m.name = "" then cn else m.name
              | none => cn)) = k then _ else _
          rw [hname]
          by_cases hk : normalize_name cn = k
          · rw [if_pos hk, if_pos hk]
          · rw [if_neg hk, if_neg hk]
            exact hinv.2.1 k
        constructor
        · -- returned id is what a later lookup resolves to
          simp only [catIdAt]
          rw [if_neg hb]
          show some (freshCategoryId st.remote)
            = (dictGet (dictSet st.categories_by_name (normalize_name cn) _)
                (normalize_name cn)).map ManagedCategory.id
          rw [dictGet_dictSet_self]
          rfl
        constructor
        · exact Or.inr ⟨_, dictGet_dictSet_self _ _ _⟩
        refine ⟨rfl, rfl, rfl, rfl, rfl, ?_⟩
        intro k v h
        show dictGet (dictSet st.categories_by_name (normalize_name cn) _) k = some v
        by_cases hk : normalize_name cn = k
        · rw [← hk] at h
          rw [hlook] at h
          cases h
        · rw [dictGet_dictSet_other _ _ _ _ hk]
          exact h
      · -- category present: pure lookup
        rw [show ensure_category st (some cn) = (some c0.id, st) by
          simp only [ensure_category]; rw [if_neg hb, hlook]]
        refine ⟨hinv, ?_, Or.inr ⟨c0, hlook⟩, rfl, rfl, rfl, rfl, rfl, fun k v h => h⟩
        simp only [catIdAt]
        rw [if_neg hb, hlook]
        rfl

theorem ensure_tag_spec (st : MigratorState) (c : String) (cid : Option Nat)
    (hdry : st.dry_run = false) (hinv : MigInv st) (hc : normalize_name c = c) :
    MigInv (ensure_tag st c cid).2 ∧
    (∃ t, dictGet (ensure_tag st c cid).2.tags_by_name c = some t ∧ t.category_id = cid) ∧
    (∀ k, k ≠ c → dictGet (ensure_tag st c cid).2.tags_by_name k = dictGet st.tags_by_name k) ∧
    (ensure_tag st c cid).2.categories_by_name = st.categories_by_name ∧
    (ensure_tag st c cid).2.remote.categories = st.remote.categories ∧
    (ensure_tag st c cid).2.remote.post = st.remote.post ∧
    (ensure_tag st c cid).2.dry_run = st.dry_run ∧
    (ensure_tag st c cid).2.oxi_categories = st.oxi_categories := by
  rcases hfound : dictGet st.tags_by_name c with _ | t
  · -- tag absent: create it
    rw [show ensure_tag st c cid
        = (some { id := freshTagId st.remote, name := c, category_id := cid },
           { st with
               remote := { st.remote with tags := st.remote.tags ++
                 [{ id := freshTagId st.remote, name := c, category_id := cid }] }
             , tags_by_name := dictSet st.tags_by_name c
                 { id := freshTagId st.remote, name := c, category_id := cid }
             , log := { st.log with tagCreates := st.log.tagCreates + 1 } }) by
      simp only [ensure_tag]
      rw [hc, hfound, hdry]
      rfl]
    refine ⟨⟨?_, fun k => hinv.2.1 k, ?_⟩,
      ⟨_, dictGet_dictSet_self _ _ _, rfl⟩,
      fun k hk => dictGet_dictSet_other _ _ _ _ (fun h => hk h.symm),
      rfl, rfl, rfl, rfl, rfl⟩
    · intro k
      show dictGet (dictSet st.tags_by_name c _) k
        = tagLookup (st.remote.tags ++ [_]) k
      rw [dictGet_dictSet, tagLookup_append_one]
      have hrn : normalize_name
          ({ id := freshTagId st.remote, name := c, category_id := cid } : ManagedTag).name
          = c := hc
      rw [hrn]
      by_cases hk : c = k
      · rw [if_pos hk, if_pos hk]
      · rw [if_neg hk, if_neg hk]
        exact hinv.1 k
    · show ((st.remote.tags ++
        [({ id := freshTagId st.remote, name := c, category_id := cid } : ManagedTag)]).map
          ManagedTag.id).Nodup
      rw [List.map_append]
      apply List.nodup_append.mpr
      refine ⟨hinv.2.2, List.nodup_singleton _, ?_⟩
      simp only [List.map_cons, List.map_nil]
      rw [List.disjoint_singleton]
      intro hmem
      have hle := mem_le_foldr_max _ _ hmem
      unfold freshTagId at hle
      omega
  · by_cases hcat : t.category_id = cid
    · -- category already right: pure no-op
      rw [ensure_tag_noop st c cid t hc hfound hcat]
      exact ⟨hinv, ⟨t, hfound, hcat⟩, fun k _ => rfl, rfl, rfl, rfl, rfl, rfl⟩
    · -- category differs: update in place
      rw [show ensure_tag st c cid
          = (some { id := t.id, name := t.name, category_id := cid },
             { st with
                 remote := { st.remote with tags := st.remote.tags.map (fun u =>
                   if u.id = t.id
                   then { id := t.id, name := t.name, category_id := cid } else u) }
               , tags_by_name := dictSet st.tags_by_name c
                   { id := t.id, name := t.name, category_id := cid }
               , log := { st.log with tagUpdates := st.log.tagUpdates + 1 } }) by
        simp only [ensure_tag]
        rw [hc, hfound]
        dsimp only
        rw [if_pos hcat, hdry]
        rfl]
      have hfind : tagLookup st.remote.tags c = some t := by
        rw [← hinv.1 c]
        exact hfound
      have hfind0 : st.remote.tags.reverse.find? (fun u => normalize_name u.name == c)
          = some t := hfind
      have htmem : t ∈ st.remote.tags := List.mem_reverse.mp (List.mem_of_find?_eq_some hfind0)
      have htp := List.find?_some hfind0
      have htpred : normalize_name t.name = c := eq_of_beq htp
      have hinj : ∀ x ∈ st.remote.tags, x.id = t.id → x = t := by
        intro x hx hxid
        exact List.inj_on_of_nodup_map hinv.2.2 hx htmem hxid
      have hname_pres : ∀ x ∈ st.remote.tags,
          (if x.id = t.id
           then ({ id := t.id, name := t.name, category_id := cid } : ManagedTag)
           else x).name = x.name := by
        intro x hx
        by_cases hxid : x.id = t.id
        · rw [if_pos hxid]
          rw [hinj x hx hxid]
        · rw [if_neg hxid]
      have hlook_map : ∀ k, tagLookup (st.remote.tags.map (fun u =>
            if u.id = t.id
            then ({ id := t.id, name := t.name, category_id := cid } : ManagedTag) else u)) k
          = (tagLookup st.remote.tags k).map (fun u =>
            if u.id = t.id
            then ({ id := t.id, name := t.name, category_id := cid } : ManagedTag) else u) := by
        intro k
        unfold tagLookup
        rw [← List.map_reverse, find?_map_pred_eq]
        intro x hx
        have hn := hname_pres x (List.mem_reverse.mp hx)
        show (normalize_name (if x.id = t.id then _ else x).name == k)
          = (normalize_name x.name == k)
        rw [hn]
      refine ⟨⟨?_, fun k => hinv.2.1 k, ?_⟩,
        ⟨_, dictGet_dictSet_self _ _ _, rfl⟩,
        fun k hk => dictGet_dictSet_other _ _ _ _ (fun h => hk h.symm),
        rfl, rfl, rfl, rfl, rfl⟩
      · intro k
        show dictGet (dictSet st.tags_by_name c _) k = tagLookup _ k
        rw [dictGet_dictSet, hlook_map k]
        by_cases hk : c = k
        · rw [if_pos hk, ← hk, hfind]
          show some _ = some (if t.id = t.id then _ else t)
          rw [if_pos rfl]
        · rw [if_neg hk, hinv.1 k]
          rcases hu : tagLookup st.remote.tags k with _ | u
          · rfl
          · have hu0 : st.remote.tags.reverse.find? (fun w => normalize_name w.name == k)
                = some u := hu
            have humem : u ∈ st.remote.tags :=
              List.mem_reverse.mp (List.mem_of_find?_eq_some hu0)
            have hup := List.find?_some hu0
            have hupred : normalize_name u.name = k := eq_of_beq hup
            have huid : ¬ u.id = t.id := by
              intro hid
              apply hk
              rw [← hupred, hinj u humem hid, htpred]
            show some u = some (if u.id = t.id then _ else u)
            rw [if_neg huid]
      · show ((st.remote.tags.map (fun u =>
            if u.id = t.id
            then ({ id := t.id, name := t.name, category_id := cid } : ManagedTag) else u)).map
              ManagedTag.id).Nodup
        rw [List.map_map]
        have : st.remote.tags.map (ManagedTag.id ∘ (fun u =>
            if u.id = t.id
            then ({ id := t.id, name := t.name, category_id := cid } : ManagedTag) else u))
            = st.remote.tags.map ManagedTag.id := by
          apply List.map_congr_left
          intro x _
          show (if x.id = t.id then _ else x).id = x.id
          by_cases hxid : x.id = t.id
          · rw [if_pos hxid]
            exact hxid.symm
          · rw [if_neg hxid]
        rw [this]
        exact hinv.2.2

theorem oxiTagParse_norm (jt : Json) (c : String) (category_arg : Option String)
    (h : oxiTagParse jt = Except.ok (some (c, category_arg))) :
    normalize_name c = c ∧ c ≠ "" ∧ pyStrip c = c := by
  cases jt with
  | obj f =>
    simp only [oxiTagParse] at h
    rcases hn : pyOrEmptyList (Json.get f "names") with _ | b | q | s | ns | g
    · rw [hn] at h
      cases h
    · rw [hn] at h
      cases h
    · rw [hn] at h
      cases h
    · rw [hn] at h
      cases h
    · rw [hn] at h
      cases ns with
      | nil => cases h
      | cons n rest =>
        dsimp only at h
        by_cases hcan : pyStrip (pyStr n) = ""
        · rw [if_pos hcan] at h
          cases h
        · rw [if_neg hcan] at h
          have hinj := Except.ok.inj h
          have hpair := Option.some.inj hinj
          have hcval : normalize_name (pyStrip (pyStr n)) = c :=
            congrArg Prod.fst hpair
          rw [← hcval]
          refine ⟨normalize_name_idem _, ?_, pyStrip_normalize_name _⟩
          exact normalize_name_ne_empty _ (pyStrip_idem _) hcan
    · rw [hn] at h
      cases h
  | null => cases h
  | bool b => cases h
  | num q => cases h
  | str s => cases h
  | arr l => cases h

theorem currentTagSet_append (l1 l2 : List String) :
    currentTagSet (l1 ++ l2) = currentTagSet l1 ++ currentTagSet l2 :=
  List.filterMap_append l1 l2 _

theorem tags_go_spec (oxi_tags : List Json) :
    ∀ st current seen disc added d a stt,
      st.dry_run = false → MigInv st → OxiCatsWF st →
      (∀ x ∈ current, x ∈ curView st.remote) →
      migrate_post_tags_go st current seen disc added oxi_tags = Except.ok (d, a, stt) →
      MigInv stt ∧ stt.dry_run = false ∧ OxiCatsWF stt ∧
      (∀ k v, dictGet st.categories_by_name k = some v →
        dictGet stt.categories_by_name k = some v) ∧
      (∀ k, k ∈ seen → dictGet stt.tags_by_name k = dictGet st.tags_by_name k) ∧
      (∀ x ∈ curView st.remote, x ∈ curView stt.remote) ∧
      stt.remote.post.sources = st.remote.post.sources ∧
      PendSat stt seen oxi_tags := by
  induction oxi_tags with
  | nil =>
    intro st current seen disc added d a stt hdry hinv hwf hcur hgo
    simp only [migrate_post_tags_go] at hgo
    cases hgo
    exact ⟨hinv, hdry, hwf, fun k v h => h, fun k _ => rfl, fun x hx => hx, rfl, trivial⟩
  | cons jt rest ih =>
    intro st current seen disc added d a stt hdry hinv hwf hcur hgo
    simp only [migrate_post_tags_go] at hgo
    rcases hparse : oxiTagParse jt with e | o
    · rw [hparse] at hgo
      simp at hgo
    · rcases o with _ | ⟨c, category_arg⟩
      · -- entry skipped before any remote interaction
        rw [hparse] at hgo
        dsimp only at hgo
        obtain ⟨i1, i2, i3, i4, i5, i6, i7, i8⟩ :=
          ih st current seen disc added d a stt hdry hinv hwf hcur hgo
        refine ⟨i1, i2, i3, i4, i5, i6, i7, ?_⟩
        show PendSat stt seen (jt :: rest)
        simp only [PendSat]
        rw [hparse]
        dsimp only
        exact i8
      · rw [hparse] at hgo
        dsimp only at hgo
        by_cases hseen : c ∈ seen
        · rw [if_pos hseen] at hgo
          obtain ⟨i1, i2, i3, i4, i5, i6, i7, i8⟩ :=
            ih st current seen disc added d a stt hdry hinv hwf hcur hgo
          refine ⟨i1, i2, i3, i4, i5, i6, i7, ?_⟩
          show PendSat stt seen (jt :: rest)
          simp only [PendSat]
          rw [hparse]
          dsimp only
          rw [if_pos hseen]
          exact i8
        · rw [if_neg hseen] at hgo
          have hnorm := oxiTagParse_norm jt c category_arg hparse
          rcases hec : ensure_category st category_arg with ⟨cid, st1⟩
          rw [hec] at hgo
          dsimp only at hgo
          have hecs := ensure_category_spec st category_arg hdry hinv hwf
          rw [hec] at hecs
          dsimp only at hecs
          obtain ⟨hinv1, hcid, hdone1, htags1, hrtags1, hpost1, hdry1, hoxi1, hcatmono1⟩ := hecs
          have hdry1x : st1.dry_run = false := by rw [hdry1]; exact hdry
          have hets := ensure_tag_spec st1 c cid hdry1x hinv1 hnorm.1
          rcases het : ensure_tag st1 c cid with ⟨tres, st2⟩
          rw [het] at hgo hets
          dsimp only at hgo hets
          obtain ⟨hinv2, ⟨t2, ht2find, ht2cid⟩, htagsk2, hcats2, hrcats2, hpost2, hdry2, hoxi2⟩ :=
            hets
          have hdry2x : st2.dry_run = false := by rw [hdry2]; exact hdry1x
          have hwf2 : OxiCatsWF st2 := by
            intro k m hm
            rw [hoxi2, hoxi1] at hm
            exact hwf k m hm
          have hpost02 : st2.remote.post = st.remote.post := by rw [hpost2, hpost1]
          have hcv2 : curView st2.remote = curView st.remote := by
            unfold curView
            rw [hpost02]
          have hsrc2 : st2.remote.post.sources = st.remote.post.sources :=
            congrArg RemotePost.sources hpost02
          have hmseen : ∀ k ∈ seen, dictGet st2.tags_by_name k = dictGet st.tags_by_name k := by
            intro k hk
            have hkc : k ≠ c := fun heq => hseen (heq ▸ hk)
            rw [htagsk2 k hkc, htags1]
          have hcatmono12 : ∀ k v, dictGet st.categories_by_name k = some v →
              dictGet st2.categories_by_name k = some v := by
            intro k v h
            rw [hcats2]
            exact hcatmono1 k v h
          have hdone2 : CatDone st2 category_arg :=
            catDone_of_cats_eq st1 st2 category_arg hcats2 hdone1
          have hbind2 : ∃ t, dictGet st2.tags_by_name c = some t ∧
              t.category_id = catIdAt st2 category_arg := by
            refine ⟨t2, ht2find, ?_⟩
            rw [catIdAt_eq_of_cats_eq st1 st2 category_arg hcats2, ← hcid]
            exact ht2cid
          by_cases hcurc : c ∈ current
          · -- already attached to the post: no attach call
            rw [if_pos hcurc] at hgo
            have hattached2 : c ∈ curView st2.remote := by
              rw [hcv2]
              exact hcur c hcurc
            obtain ⟨i1, i2, i3, i4, i5, i6, i7, i8⟩ :=
              ih _ _ _ _ _ _ _ _ hdry2x hinv2 hwf2
                (fun x hx => by rw [hcv2]; exact hcur x hx) hgo
            refine ⟨i1, i2, i3, ?_, ?_, ?_, ?_, ?_⟩
            · exact fun k v h => i4 k v (hcatmono12 k v h)
            · intro k hk
              rw [i5 k (List.mem_cons_of_mem _ hk)]
              exact hmseen k hk
            · intro x hx
              refine i6 x ?_
              rw [hcv2]
              exact hx
            · rw [i7]
              exact hsrc2
            · show PendSat stt seen (jt :: rest)
              simp only [PendSat]
              rw [hparse]
              dsimp only
              rw [if_neg hseen]
              refine ⟨?_, i8⟩
              exact TagFull_mono st2 stt c category_arg
                ⟨hdone2, hbind2, hattached2⟩ i4 (i5 c (List.mem_cons_self _ _)) i6
          · rw [if_neg hcurc] at hgo
            rw [hdry2x] at hgo
            simp only [Bool.false_eq_true, if_false] at hgo
            by_cases hatt : c ∈ st2.remote.post.tagNames
            · -- remote reports the tag as already attached (409)
              rw [show remoteAddTagToPost st2.remote c = (false, 409, st2.remote) by
                unfold remoteAddTagToPost; rw [if_pos hatt]] at hgo
              dsimp only at hgo
              rw [if_pos rfl] at hgo
              have hattached2 : c ∈ curView st2.remote := by
                have hne : pyStrip c ≠ "" := by
                  rw [hnorm.2.2]
                  exact hnorm.2.1
                have := curView_mem_of_tagName st2.remote c hatt hne
                rw [hnorm.1] at this
                exact this
              obtain ⟨i1, i2, i3, i4, i5, i6, i7, i8⟩ :=
                ih _ _ _ _ _ _ _ _ (by rfl) (by exact hinv2) (by exact hwf2)
                  (by
                    intro x hx
                    rcases List.mem_cons.mp hx with rfl | hx
                    · exact hattached2
                    · rw [hcv2]
                      exact hcur x hx) hgo
              refine ⟨i1, i2, i3, ?_, ?_, ?_, ?_, ?_⟩
              · exact fun k v h => i4 k v (hcatmono12 k v h)
              · intro k hk
                rw [i5 k (List.mem_cons_of_mem _ hk)]
                exact hmseen k hk
              · intro x hx
                refine i6 x ?_
                rw [hcv2]
                exact hx
              · rw [i7]
                exact hsrc2
              · show PendSat stt seen (jt :: rest)
                simp only [PendSat]
                rw [hparse]
                dsimp only
                rw [if_neg hseen]
                refine ⟨?_, i8⟩
                exact TagFull_mono st2 stt c category_arg
                  ⟨hdone2, hbind2, hattached2⟩ i4 (i5 c (List.mem_cons_self _ _)) i6
            · -- the attach call adds the tag
              rw [show remoteAddTagToPost st2.remote c
                  = (true, 200, { st2.remote with post :=
                      { st2.remote.post with
                          tagNames := st2.remote.post.tagNames ++ [c] } }) by
                unfold remoteAddTagToPost; rw [if_neg hatt]] at hgo
              dsimp only at hgo
              have hne : pyStrip c ≠ "" := by
                rw [hnorm.2.2]
                exact hnorm.2.1
              have hattached3 : c ∈ curView { st2.remote with post :=
                  { st2.remote.post with tagNames := st2.remote.post.tagNames ++ [c] } } := by
                have hmem : c ∈ st2.remote.post.tagNames ++ [c] :=
                  List.mem_append_right _ (List.mem_singleton.mpr rfl)
                have hmem2 := curView_mem_of_tagName
                  { st2.remote with post :=
                    { st2.remote.post with tagNames := st2.remote.post.tagNames ++ [c] } }
                  c hmem hne
                rw [hnorm.1] at hmem2
                exact hmem2
              have hcv23 : ∀ x ∈ curView st2.remote, x ∈ curView { st2.remote with post :=
                  { st2.remote.post with tagNames := st2.remote.post.tagNames ++ [c] } } := by
                intro x hx
                show x ∈ currentTagSet (st2.remote.post.tagNames ++ [c])
                rw [currentTagSet_append]
                exact List.mem_append_left _ hx
              obtain ⟨i1, i2, i3, i4, i5, i6, i7, i8⟩ :=
                ih _ _ _ _ _ _ _ _ (by rfl) (by exact hinv2) (by exact hwf2)
                  (by
                    intro x hx
                    rcases List.mem_cons.mp hx with rfl | hx
                    · exact hattached3
                    · exact hcv23 x (by rw [hcv2]; exact hcur x hx)) hgo
              refine ⟨i1, i2, i3, ?_, ?_, ?_, ?_, ?_⟩
              · exact fun k v h => i4 k v (hcatmono12 k v h)
              · intro k hk
                rw [i5 k (List.mem_cons_of_mem _ hk)]
                exact hmseen k hk
              · intro x hx
                refine i6 x (hcv23 x ?_)
                rw [hcv2]
                exact hx
              · rw [i7]
                exact hsrc2
              · show PendSat stt seen (jt :: rest)
                simp only [PendSat]
                rw [hparse]
                dsimp only
                rw [if_neg hseen]
                refine ⟨?_, i8⟩
                exact TagFull_mono _ stt c category_arg
                  (by exact ⟨hdone2, hbind2, hattached3⟩) i4 (i5 c (List.mem_cons_self _ _)) i6

theorem tags_go_saturated (oxi_tags : List Json) :
    ∀ st current seen disc added,
      st.dry_run = false →
      (∀ x ∈ curView st.remote, x ∈ current) →
      PendSat st seen oxi_tags →
      ∃ d a, migrate_post_tags_go st current seen disc added oxi_tags
        = Except.ok (d, a, st) := by
  induction oxi_tags with
  | nil =>
    intro st current seen disc added hdry hcur hsat
    exact ⟨disc, added, rfl⟩
  | cons jt rest ih =>
    intro st current seen disc added hdry hcur hsat
    simp only [PendSat] at hsat
    rcases hparse : oxiTagParse jt with e | o
    · rw [hparse] at hsat
      dsimp only at hsat
    · rcases o with _ | ⟨c, category_arg⟩
      · rw [hparse] at hsat
        dsimp only at hsat
        obtain ⟨d, a, hrec⟩ := ih st current seen disc added hdry hcur hsat
        refine ⟨d, a, ?_⟩
        simp only [migrate_post_tags_go]
        rw [hparse]
        dsimp only
        exact hrec
      · rw [hparse] at hsat
        dsimp only at hsat
        by_cases hseen : c ∈ seen
        · rw [if_pos hseen] at hsat
          obtain ⟨d, a, hrec⟩ := ih st current seen disc added hdry hcur hsat
          refine ⟨d, a, ?_⟩
          simp only [migrate_post_tags_go]
          rw [hparse]
          dsimp only
          rw [if_pos hseen]
          exact hrec
        · rw [if_neg hseen] at hsat
          obtain ⟨⟨hdone, hbind, hattached⟩, hsat2⟩ := hsat
          have hnorm := oxiTagParse_norm jt c category_arg hparse
          obtain ⟨t, hfound, hcat⟩ := hbind
          have hec := ensure_category_noop st category_arg hdone
          have het := ensure_tag_noop st c (catIdAt st category_arg) t hnorm.1 hfound hcat
          obtain ⟨d, a, hrec⟩ := ih st current (c :: seen) (disc + 1) added hdry hcur hsat2
          refine ⟨d, a, ?_⟩
          simp only [migrate_post_tags_go]
          rw [hparse]
          dsimp only
          rw [if_neg hseen, hec]
          dsimp only
          rw [het]
          dsimp only
          rw [if_pos (hcur c hattached)]
          exact hrec

theorem PendSat_transfer (oxi_tags : List Json) :
    ∀ st st2 seen,
      PendSat st seen oxi_tags →
      (∀ k v, dictGet st.categories_by_name k = some v →
        dictGet st2.categories_by_name k = some v) →
      (∀ k, dictGet st2.tags_by_name k = dictGet st.tags_by_name k) →
      (∀ x ∈ curView st.remote, x ∈ curView st2.remote) →
      PendSat st2 seen oxi_tags := by
  induction oxi_tags with
  | nil =>
    intro st st2 seen _ _ _ _
    trivial
  | cons jt rest ih =>
    intro st st2 seen hsat hcat htag hcur
    rcases hparse : oxiTagParse jt with e | o
    · simp only [PendSat, hparse] at hsat
    · rcases o with _ | ⟨c, category_arg⟩
      · simp only [PendSat, hparse] at hsat ⊢
        exact ih st st2 seen hsat hcat htag hcur
      · simp only [PendSat, hparse] at hsat ⊢
        by_cases hseen : c ∈ seen
        · rw [if_pos hseen] at hsat
          rw [if_pos hseen]
          exact ih st st2 seen hsat hcat htag hcur
        · rw [if_neg hseen] at hsat
          rw [if_neg hseen]
          obtain ⟨htf, hrest⟩ := hsat
          exact ⟨TagFull_mono st st2 c category_arg htf hcat (htag c) hcur,
            ih st st2 (c :: seen) hrest hcat htag hcur⟩

theorem mps_frame (st : MigratorState) (oxi_post : List (String × Json)) :
    (migrate_post_sources st oxi_post).2.tags_by_name = st.tags_by_name ∧
    (migrate_post_sources st oxi_post).2.categories_by_name = st.categories_by_name ∧
    (migrate_post_sources st oxi_post).2.oxi_categories = st.oxi_categories ∧
    (migrate_post_sources st oxi_post).2.dry_run = st.dry_run ∧
    (migrate_post_sources st oxi_post).2.remote.tags = st.remote.tags ∧
    (migrate_post_sources st oxi_post).2.remote.categories = st.remote.categories ∧
    (migrate_post_sources st oxi_post).2.remote.post.tagNames = st.remote.post.tagNames ∧
    (migrate_post_sources st oxi_post).2.log.catCreates = st.log.catCreates ∧
    (migrate_post_sources st oxi_post).2.log.tagCreates = st.log.tagCreates ∧
    (migrate_post_sources st oxi_post).2.log.tagUpdates = st.log.tagUpdates ∧
    (migrate_post_sources st oxi_post).2.log.attachAdds = st.log.attachAdds := by
  simp only [migrate_post_sources, remoteSetPostSources]
  split_ifs <;>
    exact ⟨rfl, rfl, rfl, rfl, rfl, rfl, rfl, rfl, rfl, rfl, rfl⟩

theorem remoteGet_clean (s : RemoteState) :
    ∀ x ∈ remoteGetPostSources s, pyStrip x = x ∧ x ≠ "" := by
  intro x hx
  unfold remoteGetPostSources at hx
  obtain ⟨hmem, hcond⟩ := List.mem_filter.mp hx
  obtain ⟨y, _, hy⟩ := List.mem_map.mp hmem
  refine ⟨?_, of_decide_eq_true hcond⟩
  rw [← hy, pyStrip_idem]

theorem getSources_of_clean (l : List String) (h : ∀ x ∈ l, pyStrip x = x ∧ x ≠ "") :
    (l.map pyStrip).filter (fun v => v ≠ "") = l := by
  induction l with
  | nil => rfl
  | cons a t ih =>
    obtain ⟨ha1, ha2⟩ := h a (List.mem_cons_self _ _)
    simp only [List.map_cons, List.filter_cons, ha1]
    rw [if_pos (by simpa using ha2)]
    rw [ih (fun x hx => h x (List.mem_cons_of_mem _ hx))]

theorem mps_saturates (st : MigratorState) (oxi_post : List (String × Json))
    (hdry : st.dry_run = false) :
    ∀ s ∈ extract_oxibooru_sources oxi_post,
      pyStrip s ∈ (remoteGetPostSources (migrate_post_sources st oxi_post).2.remote).map pyStrip := by
  by_cases h0 : (extract_oxibooru_sources oxi_post).length = 0
  · intro s hs
    rw [List.length_eq_zero.mp h0] at hs
    cases hs
  · by_cases h1 : (extract_oxibooru_sources oxi_post).filter
        (fun s => pyStrip s ∉ (remoteGetPostSources st.remote).map pyStrip) = []
    · rw [mps_noadd st oxi_post h0 h1]
      intro s hs
      have := List.filter_eq_nil_iff.mp h1 s hs
      rw [decide_eq_true_eq] at this
      exact not_not.mp this
    · rw [mps_add st oxi_post h0 h1 hdry]
      intro s hs
      have hclean : ∀ x ∈ remoteGetPostSources st.remote ++
          (extract_oxibooru_sources oxi_post).filter
            (fun s => pyStrip s ∉ (remoteGetPostSources st.remote).map pyStrip),
          pyStrip x = x ∧ x ≠ "" := by
        intro x hx
        rcases List.mem_append.mp hx with hx | hx
        · exact remoteGet_clean st.remote x hx
        · exact extract_mem_strip oxi_post x (List.mem_filter.mp hx).1
      have hget : remoteGetPostSources
          { st.remote with post := { st.remote.post with
              sources := remoteGetPostSources st.remote ++
                (extract_oxibooru_sources oxi_post).filter
                  (fun s => pyStrip s ∉ (remoteGetPostSources st.remote).map pyStrip) } }
          = remoteGetPostSources st.remote ++
            (extract_oxibooru_sources oxi_post).filter
              (fun s => pyStrip s ∉ (remoteGetPostSources st.remote).map pyStrip) := by
        unfold remoteGetPostSources
        exact getSources_of_clean _ hclean
      rw [show (remoteSetPostSources st.remote
            (remoteGetPostSources st.remote ++
              (extract_oxibooru_sources oxi_post).filter
                (fun s => pyStrip s ∉ (remoteGetPostSources st.remote).map pyStrip)))
          = { st.remote with post := { st.remote.post with
              sources := remoteGetPostSources st.remote ++
                (extract_oxibooru_sources oxi_post).filter
                  (fun s => pyStrip s ∉ (remoteGetPostSources st.remote).map pyStrip) } }
        from rfl]
      rw [hget]
      by_cases hin : s ∈ (extract_oxibooru_sources oxi_post).filter
          (fun s => pyStrip s ∉ (remoteGetPostSources st.remote).map pyStrip)
      · exact List.mem_map.mpr ⟨s, List.mem_append_right _ hin, rfl⟩
      · have hcond : ¬ (pyStrip s ∉ (remoteGetPostSources st.remote).map pyStrip) := by
          intro hc
          exact hin (List.mem_filter.mpr ⟨hs, decide_eq_true hc⟩)
        have hmem := not_not.mp hcond
        rw [List.map_append]
        exact List.mem_append_left _ hmem

theorem mps_nowrite (st : MigratorState) (oxi_post : List (String × Json))
    (hsat : ∀ s ∈ extract_oxibooru_sources oxi_post,
      pyStrip s ∈ (remoteGetPostSources st.remote).map pyStrip) :
    (migrate_post_sources st oxi_post).2.remote = st.remote ∧
    (migrate_post_sources st oxi_post).2.log.sourceReplaces = st.log.sourceReplaces := by
  by_cases h0 : (extract_oxibooru_sources oxi_post).length = 0
  · rw [mps_empty st oxi_post h0]
    exact ⟨rfl, rfl⟩
  · have h1 : (extract_oxibooru_sources oxi_post).filter
        (fun s => pyStrip s ∉ (remoteGetPostSources st.remote).map pyStrip) = [] := by
      apply List.filter_eq_nil_iff.mpr
      intro s hs
      rw [decide_eq_true_eq]
      exact not_not.mpr (hsat s hs)
    rw [mps_noadd st oxi_post h0 h1]
    exact ⟨rfl, rfl⟩

/-- C3: starting from any remote state with distinct tag ids, if a full
non-dry-run reconciliation of one post succeeds, re-running it with
identical inputs succeeds and performs zero remote writes: no category
create, no tag create or update, no attach call that newly adds, and no
source replace; the remote state is unchanged by the second run. -/
theorem claim_C3 (remote : RemoteState) (oxiCatsRaw : List OxiCatRaw)
    (oxi_tags : List Json) (oxi_post : List (String × Json))
    (hids : (remote.tags.map ManagedTag.id).Nodup) (st1 : MigratorState)
    (h1 : runReconcile remote oxiCatsRaw oxi_tags oxi_post false = Except.ok st1) :
    ∃ st2, runReconcile st1.remote oxiCatsRaw oxi_tags oxi_post false = Except.ok st2 ∧
      st2.log.catCreates = 0 ∧ st2.log.tagCreates = 0 ∧ st2.log.tagUpdates = 0 ∧
      st2.log.attachAdds = 0 ∧ st2.log.sourceReplaces = 0 ∧ st2.remote = st1.remote := by
  rcases hgo1 : migrate_post_tags_go (initMigrator remote oxiCatsRaw false)
      (currentTagSet remote.post.tagNames) [] 0 0 oxi_tags with e | ⟨d1, a1, stt⟩
  · -- the first run would have raised
    rw [show runReconcile remote oxiCatsRaw oxi_tags oxi_post false = Except.error e by
      simp only [runReconcile, migrate_post_tags]
      rw [hgo1]] at h1
    cases h1
  · obtain ⟨hinvT, hdryT, hwfT, hcatT, _, hcurT, hsrcT, hpendT⟩ :=
      tags_go_spec oxi_tags (initMigrator remote oxiCatsRaw false)
        (currentTagSet remote.post.tagNames) [] 0 0 d1 a1 stt rfl
        (migInv_init remote oxiCatsRaw false hids)
        (oxiCatsWF_init remote oxiCatsRaw false)
        (fun x hx => hx) hgo1
    obtain ⟨hf_tags, hf_cats, hf_oxi, hf_dry, hf_rtags, hf_rcats, hf_rpost,
      hf_l1, hf_l2, hf_l3, hf_l4⟩ := mps_frame stt oxi_post
    have hsat1 := mps_saturates stt oxi_post hdryT
    rw [show runReconcile remote oxiCatsRaw oxi_tags oxi_post false
        = Except.ok (migrate_post_sources stt oxi_post).2 by
      simp only [runReconcile, migrate_post_tags]
      rw [hgo1]] at h1
    have hst1 : st1 = (migrate_post_sources stt oxi_post).2 := (Except.ok.inj h1).symm
    subst hst1
    -- the second run starts from a migrator rebuilt from the updated remote
    have hids1 : ((migrate_post_sources stt oxi_post).2.remote.tags.map ManagedTag.id).Nodup := by
      rw [hf_rtags]
      exact hinvT.2.2
    have htagseq : ∀ k,
        dictGet (initMigrator (migrate_post_sources stt oxi_post).2.remote oxiCatsRaw
          false).tags_by_name k = dictGet stt.tags_by_name k := by
      intro k
      show dictGet (buildTagsIndex (migrate_post_sources stt oxi_post).2.remote.tags) k = _
      rw [dictGet_buildTagsIndex, hf_rtags, ← hinvT.1 k]
    have hcatseq : ∀ k,
        dictGet (initMigrator (migrate_post_sources stt oxi_post).2.remote oxiCatsRaw
          false).categories_by_name k = dictGet stt.categories_by_name k := by
      intro k
      show dictGet (buildCategoriesIndex (migrate_post_sources stt oxi_post).2.remote.categories) k = _
      rw [dictGet_buildCategoriesIndex, hf_rcats, ← hinvT.2.1 k]
    have hcureq : curView (initMigrator (migrate_post_sources stt oxi_post).2.remote oxiCatsRaw
        false).remote = curView stt.remote := by
      show curView (migrate_post_sources stt oxi_post).2.remote = curView stt.remote
      unfold curView
      rw [hf_rpost]
    have hpend20 : PendSat (initMigrator (migrate_post_sources stt oxi_post).2.remote oxiCatsRaw
        false) [] oxi_tags :=
      PendSat_transfer oxi_tags stt _ [] hpendT
        (fun k v h => by rw [hcatseq k]; exact h)
        htagseq
        (fun x hx => by rw [hcureq]; exact hx)
    obtain ⟨d2, a2, hgo2⟩ := tags_go_saturated oxi_tags
      (initMigrator (migrate_post_sources stt oxi_post).2.remote oxiCatsRaw false)
      (currentTagSet (migrate_post_sources stt oxi_post).2.remote.post.tagNames) [] 0 0 rfl
      (fun x hx => hx) hpend20
    have hsat20 : ∀ s ∈ extract_oxibooru_sources oxi_post,
        pyStrip s ∈ (remoteGetPostSources (initMigrator
          (migrate_post_sources stt oxi_post).2.remote oxiCatsRaw false).remote).map pyStrip := by
      intro s hs
      exact hsat1 s hs
    obtain ⟨hw1, hw2⟩ := mps_nowrite
      (initMigrator (migrate_post_sources stt oxi_post).2.remote oxiCatsRaw false)
      oxi_post hsat20
    refine ⟨(migrate_post_sources
        (initMigrator (migrate_post_sources stt oxi_post).2.remote oxiCatsRaw false)
        oxi_post).2, ?_, ?_, ?_, ?_, ?_, ?_, ?_⟩
    · simp only [runReconcile, migrate_post_tags]
      rw [hgo2]
    all_goals
      obtain ⟨hg_tags, hg_cats, hg_oxi, hg_dry, hg_rtags, hg_rcats, hg_rpost,
        hg_l1, hg_l2, hg_l3, hg_l4⟩ := mps_frame
          (initMigrator (migrate_post_sources stt oxi_post).2.remote oxiCatsRaw false) oxi_post
    · rw [hg_l1]
      rfl
    · rw [hg_l2]
      rfl
    · rw [hg_l3]
      rfl
    · rw [hg_l4]
      rfl
    · rw [hw2]
      rfl
    · exact hw1

theorem claim_C3_witness :
    ∃ st2, runReconcile
        (initMigrator
          { categories := [], tags := [], post := { tagNames := [], sources := [] } }
          [] false).remote
        [] [] [] false = Except.ok st2 ∧
      st2.log.catCreates = 0 ∧ st2.log.tagCreates = 0 ∧ st2.log.tagUpdates = 0 ∧
      st2.log.attachAdds = 0 ∧ st2.log.sourceReplaces = 0 ∧
      st2.remote = (initMigrator
          { categories := [], tags := [], post := { tagNames := [], sources := [] } }
          [] false).remote :=
  claim_C3
    { categories := [], tags := [], post := { tagNames := [], sources := [] } }
    [] [] [] (by decide)
    (initMigrator
      { categories := [], tags := [], post := { tagNames := [], sources := [] } }
      [] false)
    rfl
